import Mathlib

/-!
# Kaadugal: `DecisionForestBuilder`

A shallow embedding of `include/DecisionForestBuilder.hpp` and the properties of
its sampling step (`RandomPartition`) and of the training loop (`Build`).

Conventions of the embedding.

* `int` locals are integers (`Int`); a loop `for (int i = 0; i < n; ++i)` runs its
  body at `i = 0, ..., n - 1`, and not at all when `n ≤ 0`. The tree count is an
  `int` and the dataset size fits one, so that no sum or product formed by the
  code leaves the `int` range; the one conversion to `uint64_t` (line 126) is a
  reduction modulo `2 ^ 64`.
* The collaborators whose headers are not part of the file under study (the
  random source, the clock, the tree trainer) are the fields of `Collaborators`;
  they act on an explicit state `σ` of the outside world.
* Undefined behaviour (division by zero, a read outside a vector, a null
  dereference) is the result `none`.
* The text written to `std::cout` is not part of the embedding.
-/

namespace Kaadugal

/-- Data sampling enum `TreeDataSamplingType`. -/
inductive TreeDataSamplingType where
  | UniformPartition
  | Constant
  | Bagging
deriving DecidableEq, Repr

/-- Modelled from the spec: `AbstractDataSet` (declared in a header that is not part
of the file under study) exposes a fixed, non-negative sample count `Size()`. The
builder reads it into an `int` (`int SetSize = m_DataSet->Size()`), so the count
is a value of that type. -/
structure AbstractDataSet where
  Size : Nat
  Size_lt : Size < 2 ^ 31
deriving DecidableEq

/-- The class `DataSetIndex`, as the builder constructs it: a dataset reference and a
sequence of sample indices (`std::vector<int>`). -/
structure DataSetIndex where
  m_DataSet : AbstractDataSet
  m_Idx : List Int
deriving DecidableEq

/-- Modelled from the spec: `ForestBuilderParameters` holds the tree count
`m_NumTrees`, an `int` (32-bit two's complement); `hyper` stands for the
tree-growth parameters, which the builder only forwards. -/
structure ForestBuilderParameters where
  m_NumTrees : Int
  m_NumTrees_ge : -(2 ^ 31) ≤ m_NumTrees
  m_NumTrees_lt : m_NumTrees < 2 ^ 31
  hyper : Nat

/-- The collaborators of the builder, over the state `σ` of the outside world
(generator state, clock), the state `τ` of one `DecisionTreeBuilder` and the type
`Tree` of a trained tree.

* `shuffle v` is `std::shuffle(v.begin(), v.end(), Randomizer::Get().GetRNG())`;
* `GetRandomElement v` is `Randomizer::GetRandomElement<int>(v)`;
* `GetCurrentEpochTime` is the clock read;
* `newTreeBuilder p` is the constructor `DecisionTreeBuilder<T, S, R>(p)`;
* `treeBuild t v` is `t.Build(v)`: the reported success and the trainer afterwards;
* `GetTree t` is `t.GetTree()`. -/
structure Collaborators (σ τ Tree : Type) where
  shuffle : List Int → σ → List Int × σ
  GetRandomElement : List Int → σ → Int × σ
  GetCurrentEpochTime : σ → Nat × σ
  newTreeBuilder : ForestBuilderParameters → τ
  treeBuild : τ → DataSetIndex → σ → (Bool × τ) × σ
  GetTree : τ → Tree

/-- The fields of `DecisionForestBuilder<T, S, R>`. A null pointer and a field the
constructor leaves uninitialised are `none`; `m_Forest` is the sequence of trees
added with `AddTree`. -/
structure DecisionForestBuilder (τ Tree : Type) where
  m_DataSet : Option AbstractDataSet
  m_DataSetIndex : Option DataSetIndex
  m_DataSubsetsIdx : List DataSetIndex
  m_Parameters : ForestBuilderParameters
  m_TreeBuilders : List τ
  m_Forest : List Tree
  m_isForestTrained : Bool
  m_TimeStartedBuild : Option Nat
  m_TimeFinishedBuild : Option Nat

variable {σ τ Tree : Type}

/-- The loop `for (int i = 0; i < n; ++i) body`, threading the loop state. -/
def forLoop {α : Type} (n : Int) (body : Nat → α → α) (init : α) : α :=
  (List.range n.toNat).foldl (fun s i => body i s) init

/-- The loop `for (int i = 0; i < n; ++i) body` with a body that may be undefined. -/
def forLoopM {α : Type} (n : Int) (body : Nat → α → Option α) (init : α) : Option α :=
  (List.range n.toNat).foldlM (fun s i => body i s) init

/-- The read `v[k]` of a `std::vector<int>` at an `int` position. -/
def vectorAt (v : List Int) (k : Int) : Option Int :=
  if 0 ≤ k then v[k.toNat]? else none

/-- Modelled from the spec: `DecisionForest::AddTree` appends the tree to the forest
(the forest is an ordered, append-only collection). -/
def AddTree (forest : List Tree) (t : Tree) : List Tree :=
  forest ++ [t]

/-- Lines 44-46: `Indices` filled with `0, ..., SetSize - 1`. -/
def fillIndices (SetSize : Int) : List Int :=
  forLoop SetSize (fun i (Indices : List Int) => Indices ++ [(i : Int)]) []

/-- Lines 67-69: the block of `SubsetSize` consecutive reads that starts tree `i`'s
subset in the `UniformPartition` branch. -/
def uniformBlock (Indices : List Int) (SubsetSize : Int) (i : Nat) : Option (List Int) :=
  forLoopM SubsetSize
    (fun j SubIdx => (vectorAt Indices ((i : Int) * SubsetSize + (j : Int))).map
      (fun x => SubIdx ++ [x]))
    []

/-- Lines 61-82, the `UniformPartition` branch, on the locals `Indices` (the shuffled
index vector), `SetSize` and `NumSubsets`; the loop state is `RemCtr` and the
subset list `m_DataSubsetsIdx`. -/
def uniformPartition (ds : AbstractDataSet) (Indices : List Int) (SetSize NumSubsets : Int)
    (subsets : List DataSetIndex) : Option (List DataSetIndex) :=
  if NumSubsets = 0 then none
  else
    let SubsetSize := Int.tdiv SetSize NumSubsets
    let Remainder := Int.tmod SetSize NumSubsets
    (forLoopM NumSubsets
      (fun i (st : Int × List DataSetIndex) =>
        match uniformBlock Indices SubsetSize i with
        | none => none
        | some SubIdx =>
          if st.1 ≠ Remainder then
            match vectorAt Indices (NumSubsets * SubsetSize + st.1) with
            | none => none
            | some x => some (st.1 + 1, st.2 ++ [⟨ds, SubIdx ++ [x]⟩])
          else
            some (st.1, st.2 ++ [⟨ds, SubIdx⟩]))
      (0, subsets)).map Prod.snd

/-- Lines 88-95, the `Constant` branch: every tree gets its own shuffle of a copy of
`Indices`. -/
def constantPartition (C : Collaborators σ τ Tree) (ds : AbstractDataSet) (Indices : List Int)
    (NumSubsets : Int) (subsets : List DataSetIndex) (w : σ) : List DataSetIndex × σ :=
  forLoop NumSubsets
    (fun _ (st : List DataSetIndex × σ) =>
      let r := C.shuffle Indices st.2
      (st.1 ++ [⟨ds, r.1⟩], r.2))
    (subsets, w)

/-- Lines 105-107: `SubsetSize` draws, with replacement, from `Indices`. -/
def baggingDraws (C : Collaborators σ τ Tree) (Indices : List Int) (SubsetSize : Int) (w : σ) :
    List Int × σ :=
  forLoop SubsetSize
    (fun _ (st : List Int × σ) =>
      let r := C.GetRandomElement Indices st.2
      (st.1 ++ [r.1], r.2))
    ([], w)

/-- Lines 101-110, the `Bagging` branch. -/
def baggingPartition (C : Collaborators σ τ Tree) (ds : AbstractDataSet) (Indices : List Int)
    (SetSize NumSubsets : Int) (subsets : List DataSetIndex) (w : σ) : List DataSetIndex × σ :=
  let SubsetSize := SetSize
  forLoop NumSubsets
    (fun _ (st : List DataSetIndex × σ) =>
      let r := baggingDraws C Indices SubsetSize st.2
      (st.1 ++ [⟨ds, r.1⟩], r.2))
    (subsets, w)

/-- The body of `RandomPartition` (lines 42-111) as a function of the local
`SamplType`. -/
def RandomPartitionWith (SamplType : TreeDataSamplingType) (C : Collaborators σ τ Tree)
    (b : DecisionForestBuilder τ Tree) (w : σ) : Option (DecisionForestBuilder τ Tree × σ) :=
  match b.m_DataSet with
  | none => none
  | some ds =>
    let SetSize : Int := ds.Size
    let Indices := fillIndices SetSize
    let b := { b with m_DataSetIndex := some ⟨ds, Indices⟩ }
    let sh := C.shuffle Indices w
    let Indices := sh.1
    let w := sh.2
    match SamplType with
    | .UniformPartition =>
      (uniformPartition ds Indices SetSize b.m_Parameters.m_NumTrees b.m_DataSubsetsIdx).map
        (fun subsets => ({ b with m_DataSubsetsIdx := subsets }, w))
    | .Constant =>
      let r := constantPartition C ds Indices b.m_Parameters.m_NumTrees b.m_DataSubsetsIdx w
      some ({ b with m_DataSubsetsIdx := r.1 }, r.2)
    | .Bagging =>
      let r := baggingPartition C ds Indices SetSize b.m_Parameters.m_NumTrees b.m_DataSubsetsIdx w
      some ({ b with m_DataSubsetsIdx := r.1 }, r.2)

/-- Line 55: the sampling type is fixed in the source. -/
def SamplType : TreeDataSamplingType := TreeDataSamplingType.Bagging

/-- The private method `RandomPartition`. -/
def RandomPartition (C : Collaborators σ τ Tree) (b : DecisionForestBuilder τ Tree) (w : σ) :
    Option (DecisionForestBuilder τ Tree × σ) :=
  RandomPartitionWith SamplType C b w

/-- The constructor (lines 115-121): `m_NumTrees` trainers built from the same
parameters, the trained flag false, every other container empty. -/
def DecisionForestBuilder.construct (C : Collaborators σ τ Tree)
    (Parameters : ForestBuilderParameters) : DecisionForestBuilder τ Tree :=
  { m_DataSet := none
    m_DataSetIndex := none
    m_DataSubsetsIdx := []
    m_Parameters := Parameters
    m_TreeBuilders :=
      forLoop Parameters.m_NumTrees (fun _ tbs => tbs ++ [C.newTreeBuilder Parameters]) []
    m_Forest := []
    m_isForestTrained := false
    m_TimeStartedBuild := none
    m_TimeFinishedBuild := none }

/-- One invocation of a tree trainer by `Build`, as an observer records it: the tree
index, the view handed over and the reported outcome. -/
structure TrainCall where
  index : Nat
  view : DataSetIndex
  TreeSuccess : Bool
deriving DecidableEq

/-- State of the training loop of `Build` (lines 138-147): the local `Success`, the
builder, the outside world, and the record of trainer invocations. -/
structure TrainState (σ τ Tree : Type) where
  Success : Bool
  self : DecisionForestBuilder τ Tree
  world : σ
  calls : List TrainCall

/-- The body of the training loop at tree index `i` (lines 140-146). -/
def trainStep (C : Collaborators σ τ Tree) (i : Nat) (s : TrainState σ τ Tree) :
    Option (TrainState σ τ Tree) :=
  match s.self.m_TreeBuilders[i]?, s.self.m_DataSubsetsIdx[i]? with
  | some tb, some view =>
    let r := C.treeBuild tb view s.world
    let TreeSuccess := r.1.1
    let tbs := s.self.m_TreeBuilders.set i r.1.2
    let Success := s.Success && TreeSuccess
    let forest := if TreeSuccess then AddTree s.self.m_Forest (C.GetTree r.1.2) else s.self.m_Forest
    some { Success := Success
           self := { s.self with m_TreeBuilders := tbs, m_Forest := forest }
           world := r.2
           calls := s.calls ++ [⟨i, view, TreeSuccess⟩] }
  | _, _ => none

/-- The trees held by the trainers that a record of invocations marks as successful,
in the order of the record; `tbs` is the trainer vector `m_TreeBuilders`. -/
def successfulTrees (C : Collaborators σ τ Tree) (calls : List TrainCall) (tbs : List τ) :
    List Tree :=
  calls.filterMap
    (fun c => if c.TreeSuccess then (tbs[c.index]?).map C.GetTree else none)

/-- What the training loop has established after `k` iterations started from `s0`. -/
def TrainInv (C : Collaborators σ τ Tree) (s0 : TrainState σ τ Tree) (k : Nat)
    (s : TrainState σ τ Tree) : Prop :=
  s.self.m_DataSubsetsIdx = s0.self.m_DataSubsetsIdx ∧
  s.self.m_TreeBuilders.length = s0.self.m_TreeBuilders.length ∧
  (s.self.m_DataSet = s0.self.m_DataSet ∧ s.self.m_DataSetIndex = s0.self.m_DataSetIndex ∧
    s.self.m_Parameters = s0.self.m_Parameters ∧
    s.self.m_isForestTrained = s0.self.m_isForestTrained ∧
    s.self.m_TimeStartedBuild = s0.self.m_TimeStartedBuild ∧
    s.self.m_TimeFinishedBuild = s0.self.m_TimeFinishedBuild) ∧
  s.calls.map (fun c => c.index) = List.range k ∧
  (∀ c ∈ s.calls, s0.self.m_DataSubsetsIdx[c.index]? = some c.view) ∧
  s.Success = s.calls.all (fun c => c.TreeSuccess) ∧
  s.self.m_Forest = s0.self.m_Forest ++ successfulTrees C s.calls s.self.m_TreeBuilders

/-- What a call of `Build` leaves behind: the returned value, the builder, the outside
world, and the record of trainer invocations made during the call. -/
structure BuildOutcome (σ τ Tree : Type) where
  ret : Bool
  self : DecisionForestBuilder τ Tree
  world : σ
  calls : List TrainCall

/-- The public method `Build` (lines 123-153). -/
def Build (C : Collaborators σ τ Tree) (b : DecisionForestBuilder τ Tree)
    (DataSet : AbstractDataSet) (w : σ) : Option (BuildOutcome σ τ Tree) :=
  let b := { b with m_DataSet := some DataSet }
  if (b.m_Parameters.m_NumTrees % 2 ^ 64).toNat > DataSet.Size then
    some ⟨false, b, w, []⟩
  else
    let Success := true
    match RandomPartition C b w with
    | none => none
    | some (b, w) =>
      let nTreeBuilders : Int := b.m_TreeBuilders.length
      let t0 := C.GetCurrentEpochTime w
      let b := { b with m_TimeStartedBuild := some t0.1 }
      match forLoopM nTreeBuilders (trainStep C) ⟨Success, b, t0.2, []⟩ with
      | none => none
      | some s =>
        let t1 := C.GetCurrentEpochTime s.world
        let b := { s.self with m_TimeFinishedBuild := some t1.1 }
        let b := { b with m_isForestTrained := s.Success }
        some ⟨b.m_isForestTrained, b, t1.2, s.calls⟩

/-- The accessor `GetForest`. -/
def GetForest (b : DecisionForestBuilder τ Tree) : List Tree :=
  b.m_Forest

/-- The accessor `DoneBuild`. -/
def DoneBuild (b : DecisionForestBuilder τ Tree) : Bool :=
  b.m_isForestTrained

/-- Closed form of the view that the `UniformPartition` branch gives tree `i` out of `T`,
for a block size `q` and `r` leftover indices: the `i`-th block of `q` consecutive
entries of `Indices`, followed for `i < r` by the entry at position `T * q + i`. -/
def uniformView (Indices : List Int) (q r T i : Nat) : List Int :=
  (Indices.drop (i * q)).take q ++ (if i < r then (Indices.drop (T * q + i)).take 1 else [])

/-- The state of the outside world just before the `Constant` branch shuffles for tree
`i`, when the branch starts in state `w`: the state after `i` shuffles of `Indices`. -/
def worldBeforeShuffle (C : Collaborators σ τ Tree) (Indices : List Int) (w : σ) (i : Nat) : σ :=
  (fun w' => (C.shuffle Indices w').2)^[i] w

/-- A small deterministic outside world for worked examples: `seed` drives the random
source and the clock, `trained` counts the trainer invocations made so far. -/
structure DemoWorld where
  seed : Nat
  trained : Nat
deriving DecidableEq

/-- Example collaborators over `DemoWorld`. The shuffle rotates the vector by the
seed, a draw takes the element at position `seed / 2` (modulo the length), and every
use of the random source or the clock advances the seed. The `k`-th trainer
invocation of the run (counting from 0) fails when `fails k` holds, and the tree it
leaves in the trainer is the number `k`. -/
def demo (fails : Nat → Bool) : Collaborators DemoWorld (Option Nat) Nat where
  shuffle v w := (v.rotate w.seed, { w with seed := w.seed + 1 })
  GetRandomElement v w := (v.getD (w.seed / 2 % v.length) 0, { w with seed := w.seed + 1 })
  GetCurrentEpochTime w := (w.seed, { w with seed := w.seed + 1 })
  newTreeBuilder _ := none
  treeBuild _ _ w := ((!fails w.trained, some w.trained), { w with trained := w.trained + 1 })
  GetTree t := t.getD 0

/-- A dataset of `n` samples, for worked examples (`n` is reduced modulo `2 ^ 31`). -/
def demoDataSet (n : Nat) : AbstractDataSet :=
  ⟨n % 2 ^ 31, Nat.mod_lt _ (by decide)⟩

/-- Parameters with `n` trees, for worked examples (`n` is reduced modulo `2 ^ 31`). -/
def demoParameters (n : Nat) : ForestBuilderParameters :=
  ⟨((n % 2 ^ 31 : Nat) : Int), by omega, by omega, 0⟩

/-- A builder as `RandomPartition` finds it when `Build` calls it for the first time:
freshly constructed for `T` trees, with `m_DataSet` set to a dataset of `S` samples
(example collaborators, no trainer failing). -/
def demoBuilder (T S : Nat) : DecisionForestBuilder (Option Nat) Nat :=
  { DecisionForestBuilder.construct (demo (fun _ => false)) (demoParameters T) with
    m_DataSet := some (demoDataSet S) }

/-- Parameters with a tree count of either sign, for worked examples (`n` is wrapped
into the `int` range). -/
def demoSignedParameters (n : Int) : ForestBuilderParameters :=
  ⟨(n + 2 ^ 31) % 2 ^ 32 - 2 ^ 31, by omega, by omega, 0⟩

/-! ## Loops -/

theorem forLoop_natCast_succ {α : Type} (n : Nat) (body : Nat → α → α) (init : α) :
    forLoop ((n + 1 : Nat) : Int) body init = body n (forLoop (n : Int) body init) := by
  simp [forLoop, List.range_succ, List.foldl_append]

theorem forLoop_toNat {α : Type} (n : Int) (body : Nat → α → α) (init : α) :
    forLoop n body init = forLoop (n.toNat : Int) body init := by
  simp only [forLoop, Int.toNat_ofNat]

theorem forLoopM_toNat {α : Type} (n : Int) (body : Nat → α → Option α) (init : α) :
    forLoopM n body init = forLoopM (n.toNat : Int) body init := by
  simp only [forLoopM, Int.toNat_ofNat]

theorem forLoopM_natCast_succ {α : Type} (n : Nat) (body : Nat → α → Option α) (init : α) :
    forLoopM ((n + 1 : Nat) : Int) body init = (forLoopM (n : Int) body init).bind (body n) := by
  simp [forLoopM, List.range_succ, List.foldlM_append]

/-- Invariant rule for a `for` loop: a property that holds before the loop and is
carried by each iteration holds, at the iteration count, after it. -/
theorem forLoop_invariant {α : Type} (P : Nat → α → Prop) (n : Int) (body : Nat → α → α)
    (init : α) (h0 : P 0 init)
    (hstep : ∀ i s, i < n.toNat → P i s → P (i + 1) (body i s)) :
    P n.toNat (forLoop n body init) := by
  rw [forLoop_toNat]
  generalize n.toNat = m at hstep
  induction m with
  | zero => simpa [forLoop] using h0
  | succ k ih =>
    rw [forLoop_natCast_succ]
    exact hstep k _ (Nat.lt_succ_self k) (ih (fun i s hi => hstep i s (Nat.lt_succ_of_lt hi)))

/-- Invariant rule for a `for` loop whose body may be undefined: when each iteration
is defined on the states that satisfy the invariant, so is the loop. -/
theorem forLoopM_invariant {α : Type} (P : Nat → α → Prop) (n : Int)
    (body : Nat → α → Option α) (init : α) (h0 : P 0 init)
    (hstep : ∀ i s, i < n.toNat → P i s → ∃ s', body i s = some s' ∧ P (i + 1) s') :
    ∃ s, forLoopM n body init = some s ∧ P n.toNat s := by
  rw [forLoopM_toNat]
  generalize n.toNat = m at hstep
  induction m with
  | zero => exact ⟨init, by simp [forLoopM], h0⟩
  | succ k ih =>
    obtain ⟨s, hs, hP⟩ := ih (fun i s hi => hstep i s (Nat.lt_succ_of_lt hi))
    obtain ⟨s', hs', hP'⟩ := hstep k s (Nat.lt_succ_self k) hP
    exact ⟨s', by rw [forLoopM_natCast_succ, hs]; simpa using hs', hP'⟩

theorem fillIndices_eq (S : Nat) : fillIndices (S : Int) = (List.range S).map Int.ofNat := by
  have h := forLoop_invariant (fun i (l : List Int) => l = (List.range i).map Int.ofNat)
    (S : Int) (fun i (Indices : List Int) => Indices ++ [(i : Int)]) [] (by simp)
    (by
      intro i s _ hs
      simp [hs, List.range_succ])
  simpa [fillIndices] using h

/-! ## The training loop of `Build` -/

theorem successfulTrees_append (C : Collaborators σ τ Tree) (cs ds : List TrainCall)
    (tbs : List τ) :
    successfulTrees C (cs ++ ds) tbs = successfulTrees C cs tbs ++ successfulTrees C ds tbs := by
  simp [successfulTrees, List.filterMap_append]

theorem successfulTrees_set (C : Collaborators σ τ Tree) (cs : List TrainCall) (tbs : List τ)
    (k : Nat) (t : τ) (h : ∀ c ∈ cs, c.index ≠ k) :
    successfulTrees C cs (tbs.set k t) = successfulTrees C cs tbs := by
  unfold successfulTrees
  apply List.filterMap_congr
  intro c hc
  rw [List.getElem?_set_ne (Ne.symm (h c hc))]

theorem trainStep_invariant (C : Collaborators σ τ Tree) (s0 s : TrainState σ τ Tree) (k : Nat)
    (hk : k < s0.self.m_TreeBuilders.length) (hk' : k < s0.self.m_DataSubsetsIdx.length)
    (h : TrainInv C s0 k s) :
    ∃ s', trainStep C k s = some s' ∧ TrainInv C s0 (k + 1) s' := by
  obtain ⟨hsub, hlen, hframe, hidx, hview, hsucc, hforest⟩ := h
  have hk1 : k < s.self.m_TreeBuilders.length := by omega
  have hk2 : k < s.self.m_DataSubsetsIdx.length := by rw [hsub]; exact hk'
  have hlt : ∀ c ∈ s.calls, c.index ≠ k := by
    intro c hc
    have : c.index ∈ List.range k := by
      rw [← hidx]; exact List.mem_map_of_mem _ hc
    have := List.mem_range.mp this
    omega
  have e1 : s.self.m_TreeBuilders[k]? = some s.self.m_TreeBuilders[k] :=
    List.getElem?_eq_getElem hk1
  have e2 : s.self.m_DataSubsetsIdx[k]? = some s.self.m_DataSubsetsIdx[k] :=
    List.getElem?_eq_getElem hk2
  unfold trainStep
  rw [e1, e2]
  refine ⟨_, rfl, ?_⟩
  refine ⟨hsub, by simpa using hlen, hframe, ?_, ?_, ?_, ?_⟩
  · simp [hidx, List.range_succ]
  · intro c hc
    rcases List.mem_append.mp hc with hc | hc
    · exact hview c hc
    · simp only [List.mem_singleton] at hc
      subst hc
      simp [← hsub, List.getElem?_eq_getElem hk2]
  · simp [hsucc, List.all_append]
  · simp only [successfulTrees_append]
    rw [successfulTrees_set C s.calls _ k _ hlt]
    cases hb : (C.treeBuild s.self.m_TreeBuilders[k] s.self.m_DataSubsetsIdx[k] s.world).1.1 <;>
      simp [hb, hforest, successfulTrees, AddTree, hk1]

theorem trainLoop_spec (C : Collaborators σ τ Tree) (s0 : TrainState σ τ Tree)
    (hcalls : s0.calls = []) (hS : s0.Success = true)
    (hlen : s0.self.m_TreeBuilders.length ≤ s0.self.m_DataSubsetsIdx.length) :
    ∃ s, forLoopM (s0.self.m_TreeBuilders.length : Int) (trainStep C) s0 = some s ∧
      TrainInv C s0 s0.self.m_TreeBuilders.length s := by
  have h := forLoopM_invariant (TrainInv C s0) (s0.self.m_TreeBuilders.length : Int)
    (trainStep C) s0
    (by simp [TrainInv, hcalls, hS, successfulTrees])
    (by
      intro i s hi hinv
      rw [Int.toNat_ofNat] at hi
      exact trainStep_invariant C s0 s i hi (by omega) hinv)
  simpa using h

/-! ## The sampling step as shipped (`Bagging`) and a run of `Build` -/

theorem baggingDraws_length (C : Collaborators σ τ Tree) (Indices : List Int) (SubsetSize : Int)
    (w : σ) : (baggingDraws C Indices SubsetSize w).1.length = SubsetSize.toNat := by
  unfold baggingDraws
  exact forLoop_invariant (fun i (st : List Int × σ) => st.1.length = i) SubsetSize _ _ rfl
    (by intro i st _ h; simp [h])

theorem baggingDraws_mem (C : Collaborators σ τ Tree) (Indices : List Int) (SubsetSize : Int)
    (w : σ) (hdraw : ∀ w', 0 < SubsetSize.toNat → (C.GetRandomElement Indices w').1 ∈ Indices) :
    ∀ x ∈ (baggingDraws C Indices SubsetSize w).1, x ∈ Indices := by
  unfold baggingDraws
  exact forLoop_invariant (fun _ (st : List Int × σ) => ∀ x ∈ st.1, x ∈ Indices) SubsetSize _ _
    (by simp)
    (by
      intro i st hi h x hx
      rcases List.mem_append.mp hx with hx | hx
      · exact h x hx
      · simp only [List.mem_singleton] at hx
        subst hx
        exact hdraw _ (by omega))

/-- The `Bagging` branch appends one view per tree, each the result of a run of draws. -/
theorem baggingPartition_spec (C : Collaborators σ τ Tree) (ds : AbstractDataSet)
    (Indices : List Int) (SetSize NumSubsets : Int) (subsets : List DataSetIndex) (w : σ) :
    ∃ new, (baggingPartition C ds Indices SetSize NumSubsets subsets w).1 = subsets ++ new ∧
      new.length = NumSubsets.toNat ∧
      ∀ v ∈ new, ∃ w', v = ⟨ds, (baggingDraws C Indices SetSize w').1⟩ := by
  unfold baggingPartition
  exact forLoop_invariant
    (fun i (st : List DataSetIndex × σ) => ∃ new, st.1 = subsets ++ new ∧ new.length = i ∧
      ∀ v ∈ new, ∃ w', v = ⟨ds, (baggingDraws C Indices SetSize w').1⟩)
    NumSubsets _ _ ⟨[], by simp⟩
    (by
      rintro i st _ ⟨new, h1, h2, h3⟩
      refine ⟨new ++ [⟨ds, (baggingDraws C Indices SetSize st.2).1⟩], by simp [h1], by simp [h2], ?_⟩
      intro v hv
      rcases List.mem_append.mp hv with hv | hv
      · exact h3 v hv
      · exact ⟨st.2, by simpa using hv⟩)

/-- The sampling step as shipped, on a builder that holds a dataset: it is defined,
appends `m_NumTrees` views to the subset list and touches only the full index and
the subset list. -/
theorem RandomPartition_spec (C : Collaborators σ τ Tree) (b : DecisionForestBuilder τ Tree)
    (ds : AbstractDataSet) (w : σ) (hds : b.m_DataSet = some ds) :
    ∃ b1 w1 new, RandomPartition C b w = some (b1, w1) ∧
      b1.m_DataSubsetsIdx = b.m_DataSubsetsIdx ++ new ∧
      new.length = b.m_Parameters.m_NumTrees.toNat ∧
      b1.m_TreeBuilders = b.m_TreeBuilders ∧ b1.m_Forest = b.m_Forest ∧
      b1.m_Parameters = b.m_Parameters ∧ b1.m_DataSet = b.m_DataSet ∧
      b1.m_isForestTrained = b.m_isForestTrained := by
  obtain ⟨new, h1, h2, -⟩ := baggingPartition_spec C ds
    (C.shuffle (fillIndices (ds.Size : Int)) w).1 (ds.Size : Int) b.m_Parameters.m_NumTrees
    b.m_DataSubsetsIdx (C.shuffle (fillIndices (ds.Size : Int)) w).2
  have e : RandomPartition C b w = some
      ({ b with
          m_DataSetIndex := some ⟨ds, fillIndices (ds.Size : Int)⟩
          m_DataSubsetsIdx := (baggingPartition C ds (C.shuffle (fillIndices (ds.Size : Int)) w).1
            (ds.Size : Int) b.m_Parameters.m_NumTrees b.m_DataSubsetsIdx
            (C.shuffle (fillIndices (ds.Size : Int)) w).2).1 },
        (baggingPartition C ds (C.shuffle (fillIndices (ds.Size : Int)) w).1
            (ds.Size : Int) b.m_Parameters.m_NumTrees b.m_DataSubsetsIdx
            (C.shuffle (fillIndices (ds.Size : Int)) w).2).2) := by
    simp only [RandomPartition, RandomPartitionWith, SamplType, hds]
  exact ⟨_, _, new, e, h1, h2, rfl, rfl, rfl, rfl, rfl⟩

/-- A run of `Build` that passes the size check, on a builder with at most as many
trainers as it will have views: the call returns, and the outcome is described by the
record of trainer invocations. -/
theorem Build_run (C : Collaborators σ τ Tree) (b : DecisionForestBuilder τ Tree)
    (ds : AbstractDataSet) (w : σ)
    (hchk : ¬ (b.m_Parameters.m_NumTrees % 2 ^ 64).toNat > ds.Size)
    (hlen : b.m_TreeBuilders.length ≤
      b.m_DataSubsetsIdx.length + b.m_Parameters.m_NumTrees.toNat) :
    ∃ r b1 w1, Build C b ds w = some r ∧
      RandomPartition C { b with m_DataSet := some ds } w = some (b1, w1) ∧
      r.self.m_DataSubsetsIdx = b1.m_DataSubsetsIdx ∧
      r.calls.map (fun c => c.index) = List.range b.m_TreeBuilders.length ∧
      (∀ c ∈ r.calls, b1.m_DataSubsetsIdx[c.index]? = some c.view) ∧
      r.ret = r.calls.all (fun c => c.TreeSuccess) ∧
      r.self.m_isForestTrained = r.ret ∧
      r.self.m_Forest = b.m_Forest ++ successfulTrees C r.calls r.self.m_TreeBuilders ∧
      r.self.m_TreeBuilders.length = b.m_TreeBuilders.length := by
  obtain ⟨b1, w1, new, hrp, hsub, hnew, htb, hfor, -, -, -⟩ :=
    RandomPartition_spec C { b with m_DataSet := some ds } ds w rfl
  have hlen1 : b1.m_TreeBuilders.length ≤ b1.m_DataSubsetsIdx.length := by
    rw [htb, hsub]; simpa [hnew] using hlen
  obtain ⟨s, hs, hinv⟩ := trainLoop_spec C
    ⟨true, { b1 with m_TimeStartedBuild := some (C.GetCurrentEpochTime w1).1 },
      (C.GetCurrentEpochTime w1).2, []⟩ rfl rfl hlen1
  obtain ⟨i1, i2, -, i4, i5, i6, i7⟩ := hinv
  dsimp only at hs i1 i2 i4 i5 i6 i7 hsub hnew htb hfor
  have hB : Build C b ds w = some
      ⟨s.Success,
        { s.self with
          m_TimeFinishedBuild := some (C.GetCurrentEpochTime s.world).1
          m_isForestTrained := s.Success },
        (C.GetCurrentEpochTime s.world).2, s.calls⟩ := by
    simp only [Build, if_neg hchk, hrp]
    rw [hs]
  exact ⟨_, b1, w1, hB, hrp, i1, by rw [i4, htb], i5, i6, rfl, by rw [i7, hfor],
    by rw [i2, htb]⟩

theorem construct_trainers (C : Collaborators σ τ Tree) (p : ForestBuilderParameters) :
    (DecisionForestBuilder.construct C p).m_TreeBuilders =
      List.replicate p.m_NumTrees.toNat (C.newTreeBuilder p) := by
  have h := forLoop_invariant
    (fun i (tbs : List τ) => tbs = List.replicate i (C.newTreeBuilder p)) p.m_NumTrees
    (fun _ tbs => tbs ++ [C.newTreeBuilder p]) [] rfl
    (by intro i s _ hs; simp [hs, List.replicate_succ'])
  simpa [DecisionForestBuilder.construct] using h

/-- For a non-negative `int` tree count that does not exceed the dataset size, the
size check of `Build` (line 126) passes. -/
theorem check_passes (p : ForestBuilderParameters) (ds : AbstractDataSet)
    (h0 : 0 ≤ p.m_NumTrees) (hle : p.m_NumTrees ≤ ds.Size) :
    ¬ (p.m_NumTrees % 2 ^ 64).toNat > ds.Size := by
  have := p.m_NumTrees_lt
  rw [Int.emod_eq_of_lt h0 (by omega)]
  omega

/-! ## `Build` on a freshly constructed builder -/

theorem successfulTrees_length (C : Collaborators σ τ Tree) (calls : List TrainCall)
    (tbs : List τ) (h : ∀ c ∈ calls, c.index < tbs.length) :
    (successfulTrees C calls tbs).length = calls.countP (fun c => c.TreeSuccess) := by
  induction calls with
  | nil => simp [successfulTrees]
  | cons c cs ih =>
    have hc : c.index < tbs.length := h c (List.mem_cons_self _ _)
    have ih' := ih (fun d hd => h d (List.mem_cons_of_mem _ hd))
    unfold successfulTrees at ih' ⊢
    cases hb : c.TreeSuccess <;>
      simp [List.filterMap_cons, List.countP_cons, hb, List.getElem?_eq_getElem hc, ih']

/-- A run of `Build` on a freshly constructed builder with `0 ≤ m_NumTrees ≤ Size()`. -/
theorem Build_fresh (C : Collaborators σ τ Tree) (p : ForestBuilderParameters)
    (ds : AbstractDataSet) (w : σ) (h0 : 0 ≤ p.m_NumTrees) (hle : p.m_NumTrees ≤ ds.Size) :
    ∃ r b1 w1, Build C (DecisionForestBuilder.construct C p) ds w = some r ∧
      RandomPartition C { DecisionForestBuilder.construct C p with m_DataSet := some ds } w
        = some (b1, w1) ∧
      b1.m_DataSubsetsIdx.length = p.m_NumTrees.toNat ∧
      r.self.m_DataSubsetsIdx = b1.m_DataSubsetsIdx ∧
      r.calls.map (fun c => c.index) = List.range p.m_NumTrees.toNat ∧
      (∀ c ∈ r.calls, b1.m_DataSubsetsIdx[c.index]? = some c.view) ∧
      r.ret = r.calls.all (fun c => c.TreeSuccess) ∧
      r.self.m_isForestTrained = r.ret ∧
      r.self.m_Forest = successfulTrees C r.calls r.self.m_TreeBuilders ∧
      r.self.m_TreeBuilders.length = p.m_NumTrees.toNat := by
  have hn : (DecisionForestBuilder.construct C p).m_TreeBuilders.length = p.m_NumTrees.toNat := by
    rw [construct_trainers]; simp
  obtain ⟨r, b1, w1, hB, hrp, h1, h2, h3, h4, h5, h6, h7⟩ :=
    Build_run C (DecisionForestBuilder.construct C p) ds w (check_passes p ds h0 hle)
      (by rw [hn]; exact Nat.le_add_left _ _)
  obtain ⟨b1', w1', new, hrp', hsub, hnew, -⟩ :=
    RandomPartition_spec C { DecisionForestBuilder.construct C p with m_DataSet := some ds } ds w rfl
  rw [hrp] at hrp'
  obtain ⟨rfl, rfl⟩ := Prod.mk.inj (Option.some.inj hrp')
  refine ⟨r, b1, w1, hB, hrp, ?_, h1, by rw [h2, hn], h3, h4, h5, ?_, by rw [h7, hn]⟩
  · rw [hsub]; simpa [DecisionForestBuilder.construct] using hnew
  · simpa [DecisionForestBuilder.construct] using h6

/-- C3: after `Build` on a freshly constructed builder (with `0 ≤ N ≤ Size()`), the
forest is the list of the trees of exactly the trainers that reported success, in
increasing tree-index order, with nothing for a failed index; its length is the
number of successes. -/
theorem Build_forest_is_successful_trees (C : Collaborators σ τ Tree)
    (p : ForestBuilderParameters) (ds : AbstractDataSet) (w : σ)
    (h0 : 0 ≤ p.m_NumTrees) (hle : p.m_NumTrees ≤ ds.Size) :
    ∃ r, Build C (DecisionForestBuilder.construct C p) ds w = some r ∧
      r.calls.map (fun c => c.index) = List.range p.m_NumTrees.toNat ∧
      GetForest r.self = successfulTrees C r.calls r.self.m_TreeBuilders ∧
      (GetForest r.self).length = r.calls.countP (fun c => c.TreeSuccess) := by
  obtain ⟨r, b1, w1, hB, -, -, -, hidx, -, -, -, hforest, htb⟩ := Build_fresh C p ds w h0 hle
  refine ⟨r, hB, hidx, hforest, ?_⟩
  rw [GetForest, hforest]
  apply successfulTrees_length
  intro c hc
  have : c.index ∈ List.range p.m_NumTrees.toNat := by
    rw [← hidx]; exact List.mem_map_of_mem _ hc
  rw [htb]
  exact List.mem_range.mp this

/-- C4: for a freshly constructed builder whose `m_NumTrees` exceeds the dataset size,
`Build` returns false, the forest and the subset list are empty afterwards (and no full
index has been made), no trainer is invoked and the outside world (random source
included) is left as it was. -/
theorem Build_rejects_more_trees_than_samples (C : Collaborators σ τ Tree)
    (p : ForestBuilderParameters) (ds : AbstractDataSet) (w : σ)
    (hgt : (ds.Size : Int) < p.m_NumTrees) :
    ∃ r, Build C (DecisionForestBuilder.construct C p) ds w = some r ∧
      r.ret = false ∧ GetForest r.self = [] ∧ r.self.m_DataSubsetsIdx = [] ∧
      r.self.m_DataSetIndex = none ∧ r.calls = [] ∧ r.world = w := by
  have hlt := p.m_NumTrees_lt
  have hchk : (p.m_NumTrees % 2 ^ 64).toNat > ds.Size := by
    rw [Int.emod_eq_of_lt (by omega) (by omega)]
    omega
  refine ⟨⟨false, { DecisionForestBuilder.construct C p with m_DataSet := some ds }, w, []⟩,
    ?_, rfl, rfl, rfl, rfl, rfl, rfl⟩
  have hp : (DecisionForestBuilder.construct C p).m_Parameters = p := rfl
  simp only [Build, hp, if_pos hchk]

/-- C10 (as the code has it): `DoneBuild` returns the stored flag `m_isForestTrained`.
It is false on a freshly constructed builder, and after a `Build` call that ran all
`N` trainers (`0 ≤ N ≤ Size()`) it equals the value `Build` returned: true exactly when
every trainer reported success. -/
theorem DoneBuild_is_trained_flag (C : Collaborators σ τ Tree)
    (p : ForestBuilderParameters) (ds : AbstractDataSet) (w : σ)
    (h0 : 0 ≤ p.m_NumTrees) (hle : p.m_NumTrees ≤ ds.Size) :
    DoneBuild (DecisionForestBuilder.construct C p) = false ∧
    ∃ r, Build C (DecisionForestBuilder.construct C p) ds w = some r ∧
      r.calls.length = p.m_NumTrees.toNat ∧
      DoneBuild r.self = r.ret ∧
      (DoneBuild r.self = true ↔ ∀ c ∈ r.calls, c.TreeSuccess = true) := by
  obtain ⟨r, b1, w1, hB, -, -, -, hidx, -, hret, hflag, -, -⟩ := Build_fresh C p ds w h0 hle
  refine ⟨rfl, r, hB, ?_, hflag, ?_⟩
  · have := congrArg List.length hidx
    simpa using this
  · rw [DoneBuild, hflag, hret, List.all_eq_true]

/-- Witness for C3, on the scenario of the specification: three trees, the trainer at
index 1 fails, the others succeed; `Build` returns false and the forest holds the
trees of indices 0 and 2, in that order. -/
theorem Build_forest_is_successful_trees_witness :
    ((0 : Int) ≤ (demoParameters 3).m_NumTrees ∧
      (demoParameters 3).m_NumTrees ≤ (demoDataSet 4).Size) ∧
    (∃ r, Build (demo (fun k => k == 1))
        (DecisionForestBuilder.construct (demo (fun k => k == 1)) (demoParameters 3))
        (demoDataSet 4) ⟨0, 0⟩ = some r ∧
      r.calls.map (fun c => c.index) = List.range (demoParameters 3).m_NumTrees.toNat ∧
      GetForest r.self = successfulTrees (demo (fun k => k == 1)) r.calls r.self.m_TreeBuilders ∧
      (GetForest r.self).length = r.calls.countP (fun c => c.TreeSuccess)) ∧
    (Build (demo (fun k => k == 1))
        (DecisionForestBuilder.construct (demo (fun k => k == 1)) (demoParameters 3))
        (demoDataSet 4) ⟨0, 0⟩).map
      (fun r => (r.ret, r.calls.map (fun c => c.TreeSuccess), GetForest r.self))
      = some (false, [true, false, true], [0, 2]) :=
  ⟨⟨by decide, by decide⟩,
    Build_forest_is_successful_trees (demo (fun k => k == 1)) (demoParameters 3)
      (demoDataSet 4) ⟨0, 0⟩ (by decide) (by decide),
    by decide⟩

/-- Witness for C4, on the scenario of the specification: `SetSize = 5`,
`NumTrees = 10`. -/
theorem Build_rejects_more_trees_than_samples_witness :
    (((demoDataSet 5).Size : Int) < (demoParameters 10).m_NumTrees) ∧
    ∃ r, Build (demo (fun _ => false))
        (DecisionForestBuilder.construct (demo (fun _ => false)) (demoParameters 10))
        (demoDataSet 5) ⟨0, 0⟩ = some r ∧
      r.ret = false ∧ GetForest r.self = [] ∧ r.self.m_DataSubsetsIdx = [] ∧
      r.self.m_DataSetIndex = none ∧ r.calls = [] ∧ r.world = ⟨0, 0⟩ :=
  ⟨by decide,
    Build_rejects_more_trees_than_samples (demo (fun _ => false)) (demoParameters 10)
      (demoDataSet 5) ⟨0, 0⟩ (by decide)⟩

/-- C10, counterexample to the claim as stated: one tree on one sample, the trainer
reporting failure. `Build` runs its single trainer to the end and returns false, and
`DoneBuild` is false afterwards. -/
theorem DoneBuild_false_after_completed_build :
    (Build (demo (fun _ => true))
        (DecisionForestBuilder.construct (demo (fun _ => true)) (demoParameters 1))
        (demoDataSet 1) ⟨0, 0⟩).map
      (fun r => (r.calls.map (fun c => (c.index, c.TreeSuccess)), r.ret, DoneBuild r.self))
      = some ([(0, false)], false, false) := by
  decide

/-- Witness for C10 (as the code has it): two trees on two samples, all trainers
succeeding. -/
theorem DoneBuild_is_trained_flag_witness :
    ((0 : Int) ≤ (demoParameters 2).m_NumTrees ∧
      (demoParameters 2).m_NumTrees ≤ (demoDataSet 2).Size) ∧
    DoneBuild (DecisionForestBuilder.construct (demo (fun _ => false)) (demoParameters 2)) = false ∧
    ∃ r, Build (demo (fun _ => false))
        (DecisionForestBuilder.construct (demo (fun _ => false)) (demoParameters 2))
        (demoDataSet 2) ⟨0, 0⟩ = some r ∧
      r.calls.length = (demoParameters 2).m_NumTrees.toNat ∧
      DoneBuild r.self = r.ret ∧
      (DoneBuild r.self = true ↔ ∀ c ∈ r.calls, c.TreeSuccess = true) :=
  ⟨⟨by decide, by decide⟩,
    DoneBuild_is_trained_flag (demo (fun _ => false)) (demoParameters 2)
      (demoDataSet 2) ⟨0, 0⟩ (by decide) (by decide)⟩

/-! ## The `UniformPartition` branch -/

theorem vectorAt_natCast (v : List Int) (n : Nat) : vectorAt v (n : Int) = v[n]? := by
  simp [vectorAt]

theorem uniformBlock_eq (Indices : List Int) (q i : Nat) (h : i * q + q ≤ Indices.length) :
    uniformBlock Indices (q : Int) i = some ((Indices.drop (i * q)).take q) := by
  obtain ⟨s, hs, hP⟩ := forLoopM_invariant
    (fun j (SubIdx : List Int) => SubIdx = (Indices.drop (i * q)).take j) (q : Int)
    (fun j SubIdx => (vectorAt Indices ((i : Int) * (q : Int) + (j : Int))).map
      (fun x => SubIdx ++ [x])) [] (by simp)
    (by
      intro j SubIdx hj hS
      dsimp only at hS ⊢
      rw [Int.toNat_ofNat] at hj
      have hlt : i * q + j < Indices.length := by omega
      have hcast : (i : Int) * (q : Int) + (j : Int) = ((i * q + j : Nat) : Int) := by
        push_cast; ring
      refine ⟨SubIdx ++ [Indices[i * q + j]], ?_, ?_⟩
      · rw [hcast, vectorAt_natCast, List.getElem?_eq_getElem hlt]; rfl
      · rw [hS, List.take_succ, List.getElem?_drop, List.getElem?_eq_getElem hlt]; rfl)
  rw [Int.toNat_ofNat] at hP
  rw [uniformBlock, hs, hP]

/-- The `UniformPartition` branch with `T ≥ 1` subsets on an index vector of length `S`:
every read is inside the vector, and tree `i` gets the view `uniformView ... i`. -/
theorem uniformPartition_eq (ds : AbstractDataSet) (Indices : List Int) (S T : Nat)
    (subsets : List DataSetIndex) (hT : 1 ≤ T) (hlen : Indices.length = S) :
    uniformPartition ds Indices (S : Int) (T : Int) subsets =
      some (subsets ++ (List.range T).map
        (fun i => ⟨ds, uniformView Indices (S / T) (S % T) T i⟩)) := by
  have hq : Int.tdiv (S : Int) (T : Int) = ((S / T : Nat) : Int) := (Int.ofNat_tdiv S T).symm
  have hr : Int.tmod (S : Int) (T : Int) = ((S % T : Nat) : Int) := (Int.ofNat_tmod S T).symm
  have hT0 : ¬ (T : Int) = 0 := by omega
  have hdm : T * (S / T) + S % T = S := Nat.div_add_mod S T
  have hmod : S % T < T := Nat.mod_lt S (by omega)
  obtain ⟨st, hst, hP⟩ := forLoopM_invariant
    (fun i (st : Int × List DataSetIndex) =>
      st = (((min i (S % T) : Nat) : Int), subsets ++ (List.range i).map
        (fun k => ⟨ds, uniformView Indices (S / T) (S % T) T k⟩)))
    (T : Int)
    (fun i (st : Int × List DataSetIndex) =>
      match uniformBlock Indices ((S / T : Nat) : Int) i with
      | none => none
      | some SubIdx =>
        if st.1 ≠ ((S % T : Nat) : Int) then
          match vectorAt Indices ((T : Int) * ((S / T : Nat) : Int) + st.1) with
          | none => none
          | some x => some (st.1 + 1, st.2 ++ [⟨ds, SubIdx ++ [x]⟩])
        else
          some (st.1, st.2 ++ [⟨ds, SubIdx⟩]))
    (0, subsets) (by simp)
    (by
      intro i st hi hS
      dsimp only at hS ⊢
      rw [Int.toNat_ofNat] at hi
      have hblk : i * (S / T) + S / T ≤ Indices.length := by
        rw [hlen]
        calc i * (S / T) + S / T = (i + 1) * (S / T) := by ring
          _ ≤ T * (S / T) := Nat.mul_le_mul_right _ hi
          _ ≤ S := Nat.mul_div_le S T
      rw [uniformBlock_eq Indices (S / T) i hblk, hS]
      by_cases hir : i < S % T
      · have hmin : min i (S % T) = i := by omega
        have hmin' : min (i + 1) (S % T) = i + 1 := by omega
        have hne : ((i : Nat) : Int) ≠ ((S % T : Nat) : Int) := by omega
        have hpos : T * (S / T) + i < Indices.length := by omega
        have hcast : (T : Int) * ((S / T : Nat) : Int) + ((i : Nat) : Int)
            = ((T * (S / T) + i : Nat) : Int) := by push_cast; ring
        refine ⟨_, ?_, rfl⟩
        simp only [hmin, hmin', if_pos hne, hcast, vectorAt_natCast,
          List.getElem?_eq_getElem hpos, List.range_succ, List.map_append, List.map_cons,
          List.map_nil, uniformView, if_pos hir, List.take_one, List.head?_drop, Option.toList,
          ← List.append_assoc]
        push_cast
        rfl
      · have hmin : min i (S % T) = S % T := by omega
        have hmin' : min (i + 1) (S % T) = S % T := by omega
        refine ⟨_, ?_, rfl⟩
        simp only [hmin, hmin', ne_eq, not_true_eq_false, if_false, List.range_succ,
          List.map_append, List.map_cons, List.map_nil, uniformView, if_neg hir,
          List.append_nil, ← List.append_assoc])
  rw [Int.toNat_ofNat] at hP
  simp only [uniformPartition, if_neg hT0, hq, hr]
  rw [hst, hP]
  rfl

theorem uniformView_length (Indices : List Int) (S T i : Nat) (hi : i < T)
    (hlen : Indices.length = S) :
    (uniformView Indices (S / T) (S % T) T i).length =
      if i < S % T then S / T + 1 else S / T := by
  have hdm : T * (S / T) + S % T = S := Nat.div_add_mod S T
  have hblk : i * (S / T) + S / T ≤ S :=
    calc i * (S / T) + S / T = (i + 1) * (S / T) := by ring
      _ ≤ T * (S / T) := Nat.mul_le_mul_right _ hi
      _ ≤ S := Nat.mul_div_le S T
  unfold uniformView
  by_cases hir : i < S % T
  · simp only [if_pos hir, List.length_append, List.length_take, List.length_drop, hlen]
    omega
  · simp only [if_neg hir, List.length_append, List.length_take, List.length_drop, hlen,
      List.length_nil]
    omega

theorem perm_append_swap_middle {α : Type} (A R B X : List α) :
    ((A ++ R) ++ (B ++ X)).Perm ((A ++ B) ++ (R ++ X)) := by
  simp only [List.append_assoc]
  apply List.Perm.append_left
  rw [← List.append_assoc, ← List.append_assoc]
  exact List.Perm.append_right X List.perm_append_comm

/-- The views of the first `n` trees, concatenated, are a rearrangement of the first
`n` blocks followed by the first `min n (S % T)` leftover entries. -/
theorem uniformView_initial_perm (Indices : List Int) (S T n : Nat) :
    ((List.range n).flatMap (uniformView Indices (S / T) (S % T) T)).Perm
      (Indices.take (n * (S / T)) ++ (Indices.drop (T * (S / T))).take (min n (S % T))) := by
  induction n with
  | zero => simp
  | succ n ih =>
    rw [List.range_succ, List.flatMap_append]
    have hblock : Indices.take ((n + 1) * (S / T)) =
        Indices.take (n * (S / T)) ++ (Indices.drop (n * (S / T))).take (S / T) := by
      rw [← List.take_add]; congr 1; ring
    have hrem : (Indices.drop (T * (S / T))).take (min (n + 1) (S % T)) =
        (Indices.drop (T * (S / T))).take (min n (S % T)) ++
          (if n < S % T then (Indices.drop (T * (S / T) + n)).take 1 else []) := by
      by_cases h : n < S % T
      · rw [if_pos h, show min (n + 1) (S % T) = n + 1 by omega,
          show min n (S % T) = n by omega, List.take_add, List.drop_drop]
      · rw [if_neg h, show min (n + 1) (S % T) = S % T by omega,
          show min n (S % T) = S % T by omega, List.append_nil]
    rw [hblock, hrem]
    simp only [List.flatMap_cons, List.flatMap_nil, List.append_nil]
    exact (List.Perm.append_right _ ih).trans (perm_append_swap_middle _ _ _ _)

/-- The views of all `T ≥ 1` trees, concatenated, are a rearrangement of `Indices`. -/
theorem uniformView_perm (Indices : List Int) (S T : Nat) (hT : 1 ≤ T)
    (hlen : Indices.length = S) :
    ((List.range T).flatMap (uniformView Indices (S / T) (S % T) T)).Perm Indices := by
  have hdm : T * (S / T) + S % T = S := Nat.div_add_mod S T
  have hmod : S % T < T := Nat.mod_lt S (by omega)
  have h := uniformView_initial_perm Indices S T T
  have hmin : min T (S % T) = S % T := by omega
  have htake : (Indices.drop (T * (S / T))).take (S % T) = Indices.drop (T * (S / T)) :=
    List.take_of_length_le (by rw [List.length_drop, hlen]; omega)
  rw [hmin, htake, List.take_append_drop] at h
  exact h

/-! ## The three branches of the sampling step -/

theorem demo_shuffle_perm (fails : Nat → Bool) (v : List Int) (w : DemoWorld) :
    ((demo fails).shuffle v w).1.Perm v :=
  List.rotate_perm v w.seed

theorem demo_shuffle_length (fails : Nat → Bool) (v : List Int) (w : DemoWorld) :
    ((demo fails).shuffle v w).1.length = v.length :=
  List.length_rotate v w.seed

theorem demo_draw_mem (fails : Nat → Bool) (v : List Int) (w : DemoWorld) (hv : v ≠ []) :
    ((demo fails).GetRandomElement v w).1 ∈ v := by
  have hpos : 0 < v.length := List.length_pos.mpr hv
  have hlt : w.seed / 2 % v.length < v.length := Nat.mod_lt _ hpos
  show v.getD (w.seed / 2 % v.length) 0 ∈ v
  rw [List.getD_eq_getElem v 0 hlt]
  exact List.getElem_mem hlt

theorem mem_range_cast (S : Nat) (x : Int) :
    x ∈ (List.range S).map Int.ofNat ↔ 0 ≤ x ∧ x < S := by
  constructor
  · intro h
    obtain ⟨n, hn, rfl⟩ := List.mem_map.mp h
    have := List.mem_range.mp hn
    exact ⟨Int.ofNat_nonneg n, Int.ofNat_lt.mpr this⟩
  · rintro ⟨h0, h1⟩
    refine List.mem_map.mpr ⟨x.toNat, List.mem_range.mpr (by omega), ?_⟩
    exact Int.toNat_of_nonneg h0

theorem nodup_range_cast (S : Nat) : ((List.range S).map Int.ofNat).Nodup :=
  List.Nodup.map (fun _ _ h => Int.ofNat.inj h) (List.nodup_range S)

theorem countP_lt_range (r T : Nat) :
    (List.range T).countP (fun i => decide (i < r)) = min T r := by
  induction T with
  | zero => simp
  | succ n ih =>
    rw [List.range_succ, List.countP_append, ih]
    by_cases h : n < r
    · simp [h]; omega
    · simp [h]; omega

theorem constantPartition_eq (C : Collaborators σ τ Tree) (ds : AbstractDataSet)
    (Indices : List Int) (NumSubsets : Int) (subsets : List DataSetIndex) (w : σ) :
    constantPartition C ds Indices NumSubsets subsets w =
      (subsets ++ (List.range NumSubsets.toNat).map
        (fun i => ⟨ds, (C.shuffle Indices (worldBeforeShuffle C Indices w i)).1⟩),
        worldBeforeShuffle C Indices w NumSubsets.toNat) := by
  unfold constantPartition
  exact forLoop_invariant
    (fun i (st : List DataSetIndex × σ) =>
      st = (subsets ++ (List.range i).map
        (fun k => ⟨ds, (C.shuffle Indices (worldBeforeShuffle C Indices w k)).1⟩),
        worldBeforeShuffle C Indices w i))
    NumSubsets
    (fun _ (st : List DataSetIndex × σ) =>
      ((st.1 ++ [⟨ds, (C.shuffle Indices st.2).1⟩], (C.shuffle Indices st.2).2) :
        List DataSetIndex × σ))
    (subsets, w) (by simp [worldBeforeShuffle])
    (by
      intro i st _ hst
      dsimp only at hst ⊢
      rw [hst]
      simp [worldBeforeShuffle, List.range_succ, Function.iterate_succ_apply'])

/-- The `UniformPartition` branch inside `RandomPartition`, for `m_NumTrees ≥ 1` and a
shuffle that keeps the length of the vector: the step is defined and appends the views
`uniformView`, one per tree, cut from the shuffled index vector. -/
theorem RandomPartitionWith_uniform (C : Collaborators σ τ Tree)
    (b : DecisionForestBuilder τ Tree) (ds : AbstractDataSet) (w : σ)
    (hds : b.m_DataSet = some ds) (hT : 1 ≤ b.m_Parameters.m_NumTrees)
    (hshuffle : ∀ v w', (C.shuffle v w').1.length = v.length) :
    ∃ b1 w1, RandomPartitionWith TreeDataSamplingType.UniformPartition C b w = some (b1, w1) ∧
      b1.m_DataSubsetsIdx = b.m_DataSubsetsIdx ++
        (List.range b.m_Parameters.m_NumTrees.toNat).map (fun i =>
          ⟨ds, uniformView (C.shuffle (fillIndices (ds.Size : Int)) w).1
            (ds.Size / b.m_Parameters.m_NumTrees.toNat)
            (ds.Size % b.m_Parameters.m_NumTrees.toNat) b.m_Parameters.m_NumTrees.toNat i⟩) := by
  have hlen : (C.shuffle (fillIndices (ds.Size : Int)) w).1.length = ds.Size := by
    rw [hshuffle, fillIndices_eq]; simp
  have hcast : b.m_Parameters.m_NumTrees = ((b.m_Parameters.m_NumTrees.toNat : Nat) : Int) :=
    (Int.toNat_of_nonneg (by omega)).symm
  have hu := uniformPartition_eq ds (C.shuffle (fillIndices (ds.Size : Int)) w).1 ds.Size
    b.m_Parameters.m_NumTrees.toNat b.m_DataSubsetsIdx (by omega) hlen
  rw [← hcast] at hu
  have e : RandomPartitionWith TreeDataSamplingType.UniformPartition C b w = some
      ({ b with
          m_DataSetIndex := some ⟨ds, fillIndices (ds.Size : Int)⟩
          m_DataSubsetsIdx := b.m_DataSubsetsIdx ++
            (List.range b.m_Parameters.m_NumTrees.toNat).map (fun i =>
              ⟨ds, uniformView (C.shuffle (fillIndices (ds.Size : Int)) w).1
                (ds.Size / b.m_Parameters.m_NumTrees.toNat)
                (ds.Size % b.m_Parameters.m_NumTrees.toNat)
                b.m_Parameters.m_NumTrees.toNat i⟩) },
        (C.shuffle (fillIndices (ds.Size : Int)) w).2) := by
    simp only [RandomPartitionWith, hds, hu, Option.map_some']
  exact ⟨_, _, e, rfl⟩

theorem RandomPartitionWith_bagging (C : Collaborators σ τ Tree)
    (b : DecisionForestBuilder τ Tree) (ds : AbstractDataSet) (w : σ)
    (hds : b.m_DataSet = some ds) :
    RandomPartitionWith TreeDataSamplingType.Bagging C b w = some
      ({ b with
          m_DataSetIndex := some ⟨ds, fillIndices (ds.Size : Int)⟩
          m_DataSubsetsIdx := (baggingPartition C ds (C.shuffle (fillIndices (ds.Size : Int)) w).1
            (ds.Size : Int) b.m_Parameters.m_NumTrees b.m_DataSubsetsIdx
            (C.shuffle (fillIndices (ds.Size : Int)) w).2).1 },
        (baggingPartition C ds (C.shuffle (fillIndices (ds.Size : Int)) w).1
            (ds.Size : Int) b.m_Parameters.m_NumTrees b.m_DataSubsetsIdx
            (C.shuffle (fillIndices (ds.Size : Int)) w).2).2) := by
  simp only [RandomPartitionWith, hds]

theorem RandomPartitionWith_constant (C : Collaborators σ τ Tree)
    (b : DecisionForestBuilder τ Tree) (ds : AbstractDataSet) (w : σ)
    (hds : b.m_DataSet = some ds) :
    RandomPartitionWith TreeDataSamplingType.Constant C b w = some
      ({ b with
          m_DataSetIndex := some ⟨ds, fillIndices (ds.Size : Int)⟩
          m_DataSubsetsIdx := (constantPartition C ds (C.shuffle (fillIndices (ds.Size : Int)) w).1
            b.m_Parameters.m_NumTrees b.m_DataSubsetsIdx
            (C.shuffle (fillIndices (ds.Size : Int)) w).2).1 },
        (constantPartition C ds (C.shuffle (fillIndices (ds.Size : Int)) w).1
            b.m_Parameters.m_NumTrees b.m_DataSubsetsIdx
            (C.shuffle (fillIndices (ds.Size : Int)) w).2).2) := by
  simp only [RandomPartitionWith, hds]

/-- C5: in the `UniformPartition` branch of `RandomPartition`, for a dataset of size `S`,
a tree count `T ≥ 1` and a shuffle that returns a permutation of its argument, the step
is defined, appends `T` views, and the concatenation of their index sequences is a
permutation of `0, ..., S - 1`: every dataset index occurs in exactly one view, exactly
once, whether or not `T` divides `S` (the bound `T ≤ S` is not needed). -/
theorem uniformPartition_covers_each_index_once (C : Collaborators σ τ Tree)
    (b : DecisionForestBuilder τ Tree) (ds : AbstractDataSet) (w : σ)
    (hds : b.m_DataSet = some ds) (hT : 1 ≤ b.m_Parameters.m_NumTrees)
    (hshuffle : ∀ v w', (C.shuffle v w').1.Perm v) :
    ∃ b1 w1 new, RandomPartitionWith TreeDataSamplingType.UniformPartition C b w
        = some (b1, w1) ∧
      b1.m_DataSubsetsIdx = b.m_DataSubsetsIdx ++ new ∧
      new.length = b.m_Parameters.m_NumTrees.toNat ∧
      (new.flatMap (fun v => v.m_Idx)).Perm ((List.range ds.Size).map Int.ofNat) := by
  obtain ⟨b1, w1, h1, h2⟩ := RandomPartitionWith_uniform C b ds w hds hT
    (fun v w' => (hshuffle v w').length_eq)
  refine ⟨b1, w1, _, h1, h2, by simp, ?_⟩
  have hperm := hshuffle (fillIndices (ds.Size : Int)) w
  have hlen : (C.shuffle (fillIndices (ds.Size : Int)) w).1.length = ds.Size := by
    rw [hperm.length_eq, fillIndices_eq]; simp
  rw [List.flatMap_map]
  refine (uniformView_perm _ ds.Size _ (by omega) hlen).trans ?_
  rw [← fillIndices_eq]
  exact hperm

/-- C6: in the `UniformPartition` branch of `RandomPartition`, for a dataset of size `S`,
a tree count `T ≥ 1` and a shuffle that keeps the length of the vector, the view of tree
`i` has `S / T + 1` indices when `i < S % T` and `S / T` otherwise; so every size is
`S / T` or `S / T + 1`, and exactly `S % T` views, those of the lowest tree indices,
have the larger size (the bound `T ≤ S` is not needed). -/
theorem uniformPartition_subset_sizes (C : Collaborators σ τ Tree)
    (b : DecisionForestBuilder τ Tree) (ds : AbstractDataSet) (w : σ)
    (hds : b.m_DataSet = some ds) (hT : 1 ≤ b.m_Parameters.m_NumTrees)
    (hshuffle : ∀ v w', (C.shuffle v w').1.length = v.length) :
    ∃ b1 w1 new, RandomPartitionWith TreeDataSamplingType.UniformPartition C b w
        = some (b1, w1) ∧
      b1.m_DataSubsetsIdx = b.m_DataSubsetsIdx ++ new ∧
      new.map (fun v => v.m_Idx.length) =
        (List.range b.m_Parameters.m_NumTrees.toNat).map (fun i =>
          if i < ds.Size % b.m_Parameters.m_NumTrees.toNat
          then ds.Size / b.m_Parameters.m_NumTrees.toNat + 1
          else ds.Size / b.m_Parameters.m_NumTrees.toNat) ∧
      (∀ v ∈ new, v.m_Idx.length = ds.Size / b.m_Parameters.m_NumTrees.toNat ∨
        v.m_Idx.length = ds.Size / b.m_Parameters.m_NumTrees.toNat + 1) ∧
      new.countP (fun v => v.m_Idx.length = ds.Size / b.m_Parameters.m_NumTrees.toNat + 1)
        = ds.Size % b.m_Parameters.m_NumTrees.toNat := by
  obtain ⟨b1, w1, h1, h2⟩ := RandomPartitionWith_uniform C b ds w hds hT hshuffle
  have hlen : (C.shuffle (fillIndices (ds.Size : Int)) w).1.length = ds.Size := by
    rw [hshuffle, fillIndices_eq]; simp
  have hmod : ds.Size % b.m_Parameters.m_NumTrees.toNat < b.m_Parameters.m_NumTrees.toNat :=
    Nat.mod_lt _ (by omega)
  refine ⟨b1, w1, _, h1, h2, ?_, ?_, ?_⟩
  · rw [List.map_map]
    apply List.map_congr_left
    intro i hi
    exact uniformView_length _ ds.Size _ i (List.mem_range.mp hi) hlen
  · intro v hv
    obtain ⟨i, hi, rfl⟩ := List.mem_map.mp hv
    have := uniformView_length _ ds.Size _ i (List.mem_range.mp hi) hlen
    dsimp only
    rw [this]
    split <;> simp
  · rw [List.countP_map]
    have hcongr : (List.range b.m_Parameters.m_NumTrees.toNat).countP
        ((fun v : DataSetIndex =>
            decide (v.m_Idx.length = ds.Size / b.m_Parameters.m_NumTrees.toNat + 1)) ∘
          fun i => ⟨ds, uniformView (C.shuffle (fillIndices (ds.Size : Int)) w).1
            (ds.Size / b.m_Parameters.m_NumTrees.toNat)
            (ds.Size % b.m_Parameters.m_NumTrees.toNat) b.m_Parameters.m_NumTrees.toNat i⟩)
        = (List.range b.m_Parameters.m_NumTrees.toNat).countP
          (fun i => decide (i < ds.Size % b.m_Parameters.m_NumTrees.toNat)) := by
      apply List.countP_congr
      intro i hi
      have := uniformView_length _ ds.Size _ i (List.mem_range.mp hi) hlen
      simp only [Function.comp, this, decide_eq_true_eq]
      split <;> simp_all
    rw [hcongr, countP_lt_range]
    omega

/-- C7: in the `Bagging` branch of `RandomPartition`, for a dataset of size `S`, a
shuffle that returns a permutation and a draw that returns an element of the (non-empty)
vector it is given, the step is defined and appends `m_NumTrees` views, each with exactly
`S` indices, every one of them in `[0, S)`. A view need not be a permutation of
`0, ..., S - 1`: with the example collaborators, which meet both conditions, a view
repeats an index. -/
theorem bagging_views_sized_and_in_range (C : Collaborators σ τ Tree)
    (b : DecisionForestBuilder τ Tree) (ds : AbstractDataSet) (w : σ)
    (hds : b.m_DataSet = some ds)
    (hshuffle : ∀ v w', (C.shuffle v w').1.Perm v)
    (hdraw : ∀ v w', v ≠ [] → (C.GetRandomElement v w').1 ∈ v) :
    (∃ b1 w1 new, RandomPartitionWith TreeDataSamplingType.Bagging C b w = some (b1, w1) ∧
      b1.m_DataSubsetsIdx = b.m_DataSubsetsIdx ++ new ∧
      new.length = b.m_Parameters.m_NumTrees.toNat ∧
      ∀ v ∈ new, v.m_Idx.length = ds.Size ∧ ∀ x ∈ v.m_Idx, 0 ≤ x ∧ x < ds.Size) ∧
    (∃ (C0 : Collaborators DemoWorld (Option Nat) Nat)
        (b0 : DecisionForestBuilder (Option Nat) Nat) (w0 : DemoWorld),
      (∀ v w', (C0.shuffle v w').1.Perm v) ∧
      (∀ v w', v ≠ [] → (C0.GetRandomElement v w').1 ∈ v) ∧
      ∃ r, RandomPartitionWith TreeDataSamplingType.Bagging C0 b0 w0 = some r ∧
        ∃ v ∈ r.1.m_DataSubsetsIdx, ¬ v.m_Idx.Nodup) := by
  constructor
  · have hperm : (C.shuffle (fillIndices (ds.Size : Int)) w).1.Perm
        ((List.range ds.Size).map Int.ofNat) := by
      rw [← fillIndices_eq]; exact hshuffle _ w
    obtain ⟨new, h1, h2, h3⟩ := baggingPartition_spec C ds
      (C.shuffle (fillIndices (ds.Size : Int)) w).1 (ds.Size : Int) b.m_Parameters.m_NumTrees
      b.m_DataSubsetsIdx (C.shuffle (fillIndices (ds.Size : Int)) w).2
    refine ⟨_, _, new, RandomPartitionWith_bagging C b ds w hds, h1, h2, ?_⟩
    intro v hv
    obtain ⟨w', rfl⟩ := h3 v hv
    refine ⟨by rw [baggingDraws_length]; simp, ?_⟩
    intro x hx
    have hne : 0 < ((ds.Size : Int)).toNat →
        (C.shuffle (fillIndices (ds.Size : Int)) w).1 ≠ [] := by
      intro hpos heq
      have := hperm.length_eq
      rw [heq] at this
      simp at this hpos
      omega
    have hx' := baggingDraws_mem C _ (ds.Size : Int) w'
      (fun u hpos => hdraw _ u (hne hpos)) x hx
    exact (mem_range_cast ds.Size x).mp (hperm.mem_iff.mp hx')
  · refine ⟨demo (fun _ => false),
      { DecisionForestBuilder.construct (demo (fun _ => false)) (demoParameters 1) with
        m_DataSet := some (demoDataSet 3) }, ⟨0, 0⟩,
      demo_shuffle_perm _, fun v w' => demo_draw_mem _ v w', _, rfl, ⟨demoDataSet 3, [0, 1, 1]⟩,
      by decide, by decide⟩

/-- C8: in the `Constant` branch of `RandomPartition`, for a dataset of size `S` and a
shuffle that returns a permutation of its argument, the step is defined and appends
`m_NumTrees` views; each has exactly `S` indices and is a permutation of `0, ..., S - 1`
(no index repeated, and its members are exactly the integers of `[0, S)`), and the view
of tree `i` is the result of a shuffle call of its own, made in the state of the outside
world that the `i` earlier calls have left. -/
theorem constant_views_are_permutations (C : Collaborators σ τ Tree)
    (b : DecisionForestBuilder τ Tree) (ds : AbstractDataSet) (w : σ)
    (hds : b.m_DataSet = some ds)
    (hshuffle : ∀ v w', (C.shuffle v w').1.Perm v) :
    ∃ b1 w1 new, RandomPartitionWith TreeDataSamplingType.Constant C b w = some (b1, w1) ∧
      b1.m_DataSubsetsIdx = b.m_DataSubsetsIdx ++ new ∧
      new.length = b.m_Parameters.m_NumTrees.toNat ∧
      (∀ v ∈ new, v.m_Idx.length = ds.Size ∧
        v.m_Idx.Perm ((List.range ds.Size).map Int.ofNat) ∧ v.m_Idx.Nodup ∧
        ∀ x, x ∈ v.m_Idx ↔ 0 ≤ x ∧ x < ds.Size) ∧
      new = (List.range b.m_Parameters.m_NumTrees.toNat).map (fun i =>
        ⟨ds, (C.shuffle (C.shuffle (fillIndices (ds.Size : Int)) w).1
          (worldBeforeShuffle C (C.shuffle (fillIndices (ds.Size : Int)) w).1
            (C.shuffle (fillIndices (ds.Size : Int)) w).2 i)).1⟩) := by
  have hperm : (C.shuffle (fillIndices (ds.Size : Int)) w).1.Perm
      ((List.range ds.Size).map Int.ofNat) := by
    rw [← fillIndices_eq]; exact hshuffle _ w
  have hc := constantPartition_eq C ds (C.shuffle (fillIndices (ds.Size : Int)) w).1
    b.m_Parameters.m_NumTrees b.m_DataSubsetsIdx (C.shuffle (fillIndices (ds.Size : Int)) w).2
  refine ⟨_, _, _, RandomPartitionWith_constant C b ds w hds, by rw [hc], by simp, ?_, rfl⟩
  intro v hv
  obtain ⟨i, -, rfl⟩ := List.mem_map.mp hv
  have hv' := (hshuffle (C.shuffle (fillIndices (ds.Size : Int)) w).1
    (worldBeforeShuffle C (C.shuffle (fillIndices (ds.Size : Int)) w).1
      (C.shuffle (fillIndices (ds.Size : Int)) w).2 i)).trans hperm
  refine ⟨by rw [hv'.length_eq]; simp, hv', (hv'.nodup_iff).mpr (nodup_range_cast ds.Size), ?_⟩
  intro x
  rw [hv'.mem_iff]
  exact mem_range_cast ds.Size x

/-- One view per tree: for the `Constant` and `Bagging` strategies with any tree count,
and for the `UniformPartition` strategy with `m_NumTrees ≥ 1` and a shuffle that keeps
the length of the vector, `RandomPartition` run on a builder that holds a dataset and
has an empty subset list is defined and leaves exactly `m_NumTrees` views in the list,
so that the lookup of view `i` succeeds for every `i < m_NumTrees`. -/
theorem RandomPartition_one_view_per_tree (SamplType : TreeDataSamplingType)
    (C : Collaborators σ τ Tree) (b : DecisionForestBuilder τ Tree) (ds : AbstractDataSet)
    (w : σ) (hds : b.m_DataSet = some ds) (hempty : b.m_DataSubsetsIdx = [])
    (hU : SamplType = TreeDataSamplingType.UniformPartition →
      1 ≤ b.m_Parameters.m_NumTrees ∧ ∀ v w', (C.shuffle v w').1.length = v.length) :
    ∃ b1 w1, RandomPartitionWith SamplType C b w = some (b1, w1) ∧
      b1.m_DataSubsetsIdx.length = b.m_Parameters.m_NumTrees.toNat ∧
      ∀ i, i < b.m_Parameters.m_NumTrees.toNat → ∃ v, b1.m_DataSubsetsIdx[i]? = some v := by
  have key : ∃ b1 w1, RandomPartitionWith SamplType C b w = some (b1, w1) ∧
      b1.m_DataSubsetsIdx.length = b.m_Parameters.m_NumTrees.toNat := by
    cases SamplType with
    | UniformPartition =>
      obtain ⟨hT, hsh⟩ := hU rfl
      obtain ⟨b1, w1, h1, h2⟩ := RandomPartitionWith_uniform C b ds w hds hT hsh
      exact ⟨b1, w1, h1, by rw [h2, hempty]; simp⟩
    | Constant =>
      refine ⟨_, _, RandomPartitionWith_constant C b ds w hds, ?_⟩
      rw [constantPartition_eq, hempty]; simp
    | Bagging =>
      obtain ⟨new, h1, h2, -⟩ := baggingPartition_spec C ds
        (C.shuffle (fillIndices (ds.Size : Int)) w).1 (ds.Size : Int) b.m_Parameters.m_NumTrees
        b.m_DataSubsetsIdx (C.shuffle (fillIndices (ds.Size : Int)) w).2
      refine ⟨_, _, RandomPartitionWith_bagging C b ds w hds, ?_⟩
      rw [h1, hempty]; simpa using h2
  obtain ⟨b1, w1, h1, h2⟩ := key
  refine ⟨b1, w1, h1, h2, ?_⟩
  intro i hi
  exact ⟨b1.m_DataSubsetsIdx[i], List.getElem?_eq_getElem (by omega)⟩

/-- Witness for C5: 10 samples, 3 trees (3 does not divide 10). -/
theorem uniformPartition_covers_each_index_once_witness :
    ((demoBuilder 3 10).m_DataSet = some (demoDataSet 10) ∧
      1 ≤ (demoBuilder 3 10).m_Parameters.m_NumTrees ∧
      ∀ v w', ((demo (fun _ => false)).shuffle v w').1.Perm v) ∧
    ∃ b1 w1 new, RandomPartitionWith TreeDataSamplingType.UniformPartition
        (demo (fun _ => false)) (demoBuilder 3 10) ⟨3, 0⟩ = some (b1, w1) ∧
      b1.m_DataSubsetsIdx = (demoBuilder 3 10).m_DataSubsetsIdx ++ new ∧
      new.length = (demoBuilder 3 10).m_Parameters.m_NumTrees.toNat ∧
      (new.flatMap (fun v => v.m_Idx)).Perm ((List.range (demoDataSet 10).Size).map Int.ofNat) :=
  ⟨⟨rfl, by decide, demo_shuffle_perm _⟩,
    uniformPartition_covers_each_index_once (demo (fun _ => false)) (demoBuilder 3 10)
      (demoDataSet 10) ⟨3, 0⟩ rfl (by decide) (demo_shuffle_perm _)⟩

/-- Witness for C6, on the scenario of the specification: `SetSize = 10`,
`NumTrees = 3` gives the sizes 4, 3, 3. -/
theorem uniformPartition_subset_sizes_witness :
    ((demoBuilder 3 10).m_DataSet = some (demoDataSet 10) ∧
      1 ≤ (demoBuilder 3 10).m_Parameters.m_NumTrees ∧
      ∀ v w', ((demo (fun _ => false)).shuffle v w').1.length = v.length) ∧
    (∃ b1 w1 new, RandomPartitionWith TreeDataSamplingType.UniformPartition
        (demo (fun _ => false)) (demoBuilder 3 10) ⟨3, 0⟩ = some (b1, w1) ∧
      b1.m_DataSubsetsIdx = (demoBuilder 3 10).m_DataSubsetsIdx ++ new ∧
      new.map (fun v => v.m_Idx.length) =
        (List.range (demoBuilder 3 10).m_Parameters.m_NumTrees.toNat).map (fun i =>
          if i < (demoDataSet 10).Size % (demoBuilder 3 10).m_Parameters.m_NumTrees.toNat
          then (demoDataSet 10).Size / (demoBuilder 3 10).m_Parameters.m_NumTrees.toNat + 1
          else (demoDataSet 10).Size / (demoBuilder 3 10).m_Parameters.m_NumTrees.toNat) ∧
      (∀ v ∈ new,
        v.m_Idx.length = (demoDataSet 10).Size / (demoBuilder 3 10).m_Parameters.m_NumTrees.toNat ∨
        v.m_Idx.length =
          (demoDataSet 10).Size / (demoBuilder 3 10).m_Parameters.m_NumTrees.toNat + 1) ∧
      new.countP (fun v => v.m_Idx.length =
          (demoDataSet 10).Size / (demoBuilder 3 10).m_Parameters.m_NumTrees.toNat + 1)
        = (demoDataSet 10).Size % (demoBuilder 3 10).m_Parameters.m_NumTrees.toNat) ∧
    (RandomPartitionWith TreeDataSamplingType.UniformPartition (demo (fun _ => false))
        (demoBuilder 3 10) ⟨3, 0⟩).map
      (fun r => r.1.m_DataSubsetsIdx.map (fun v => v.m_Idx))
      = some [[3, 4, 5, 2], [6, 7, 8], [9, 0, 1]] :=
  ⟨⟨rfl, by decide, demo_shuffle_length _⟩,
    uniformPartition_subset_sizes (demo (fun _ => false)) (demoBuilder 3 10)
      (demoDataSet 10) ⟨3, 0⟩ rfl (by decide) (demo_shuffle_length _),
    by decide⟩

/-- Witness for C7: one tree on three samples, with the example collaborators. -/
theorem bagging_views_sized_and_in_range_witness :
    ((demoBuilder 1 3).m_DataSet = some (demoDataSet 3) ∧
      (∀ v w', ((demo (fun _ => false)).shuffle v w').1.Perm v) ∧
      ∀ v w', v ≠ [] → ((demo (fun _ => false)).GetRandomElement v w').1 ∈ v) ∧
    ∃ b1 w1 new, RandomPartitionWith TreeDataSamplingType.Bagging (demo (fun _ => false))
        (demoBuilder 1 3) ⟨0, 0⟩ = some (b1, w1) ∧
      b1.m_DataSubsetsIdx = (demoBuilder 1 3).m_DataSubsetsIdx ++ new ∧
      new.length = (demoBuilder 1 3).m_Parameters.m_NumTrees.toNat ∧
      ∀ v ∈ new, v.m_Idx.length = (demoDataSet 3).Size ∧
        ∀ x ∈ v.m_Idx, 0 ≤ x ∧ x < (demoDataSet 3).Size :=
  ⟨⟨rfl, demo_shuffle_perm _, fun v w' => demo_draw_mem _ v w'⟩,
    (bagging_views_sized_and_in_range (demo (fun _ => false)) (demoBuilder 1 3)
      (demoDataSet 3) ⟨0, 0⟩ rfl (demo_shuffle_perm _) (fun v w' => demo_draw_mem _ v w')).1⟩

/-- Witness for C8: two trees on three samples; the two trees get the index sequences
`[1, 2, 0]` and `[2, 0, 1]`, in different orders. -/
theorem constant_views_are_permutations_witness :
    ((demoBuilder 2 3).m_DataSet = some (demoDataSet 3) ∧
      ∀ v w', ((demo (fun _ => false)).shuffle v w').1.Perm v) ∧
    (∃ b1 w1 new, RandomPartitionWith TreeDataSamplingType.Constant (demo (fun _ => false))
        (demoBuilder 2 3) ⟨0, 0⟩ = some (b1, w1) ∧
      b1.m_DataSubsetsIdx = (demoBuilder 2 3).m_DataSubsetsIdx ++ new ∧
      new.length = (demoBuilder 2 3).m_Parameters.m_NumTrees.toNat ∧
      (∀ v ∈ new, v.m_Idx.length = (demoDataSet 3).Size ∧
        v.m_Idx.Perm ((List.range (demoDataSet 3).Size).map Int.ofNat) ∧ v.m_Idx.Nodup ∧
        ∀ x, x ∈ v.m_Idx ↔ 0 ≤ x ∧ x < (demoDataSet 3).Size) ∧
      new = (List.range (demoBuilder 2 3).m_Parameters.m_NumTrees.toNat).map (fun i =>
        ⟨demoDataSet 3,
          ((demo (fun _ => false)).shuffle
            ((demo (fun _ => false)).shuffle (fillIndices ((demoDataSet 3).Size : Int)) ⟨0, 0⟩).1
          (worldBeforeShuffle (demo (fun _ => false))
            ((demo (fun _ => false)).shuffle (fillIndices ((demoDataSet 3).Size : Int)) ⟨0, 0⟩).1
            ((demo (fun _ => false)).shuffle (fillIndices ((demoDataSet 3).Size : Int)) ⟨0, 0⟩).2
            i)).1⟩)) ∧
    (RandomPartitionWith TreeDataSamplingType.Constant (demo (fun _ => false))
        (demoBuilder 2 3) ⟨0, 0⟩).map
      (fun r => r.1.m_DataSubsetsIdx.map (fun v => v.m_Idx)) = some [[1, 2, 0], [2, 0, 1]] :=
  ⟨⟨rfl, demo_shuffle_perm _⟩,
    constant_views_are_permutations (demo (fun _ => false)) (demoBuilder 2 3)
      (demoDataSet 3) ⟨0, 0⟩ rfl (demo_shuffle_perm _),
    by decide⟩

/-- An instance of the one-view-per-tree property: the `UniformPartition` strategy, 3
trees on 10 samples. -/
theorem RandomPartition_one_view_per_tree_witness :
    ((demoBuilder 3 10).m_DataSet = some (demoDataSet 10) ∧
      (demoBuilder 3 10).m_DataSubsetsIdx = [] ∧
      (TreeDataSamplingType.UniformPartition = TreeDataSamplingType.UniformPartition →
        1 ≤ (demoBuilder 3 10).m_Parameters.m_NumTrees ∧
        ∀ v w', ((demo (fun _ => false)).shuffle v w').1.length = v.length)) ∧
    ∃ b1 w1, RandomPartitionWith TreeDataSamplingType.UniformPartition (demo (fun _ => false))
        (demoBuilder 3 10) ⟨0, 0⟩ = some (b1, w1) ∧
      b1.m_DataSubsetsIdx.length = (demoBuilder 3 10).m_Parameters.m_NumTrees.toNat ∧
      ∀ i, i < (demoBuilder 3 10).m_Parameters.m_NumTrees.toNat →
        ∃ v, b1.m_DataSubsetsIdx[i]? = some v :=
  ⟨⟨rfl, rfl, fun _ => ⟨by decide, demo_shuffle_length _⟩⟩,
    RandomPartition_one_view_per_tree TreeDataSamplingType.UniformPartition
      (demo (fun _ => false)) (demoBuilder 3 10) (demoDataSet 10) ⟨0, 0⟩ rfl rfl
      (fun _ => ⟨by decide, demo_shuffle_length _⟩)⟩

/-! ## Construction -/

/-- A tree count that passes the size check of `Build` (line 126) is non-negative and
at most the dataset size: a negative `int` converts to a value of at least
`2 ^ 64 - 2 ^ 31`, above every dataset size. -/
theorem of_check_passes (p : ForestBuilderParameters) (ds : AbstractDataSet)
    (h : ¬ (p.m_NumTrees % 2 ^ 64).toNat > ds.Size) :
    0 ≤ p.m_NumTrees ∧ p.m_NumTrees ≤ ds.Size := by
  have h1 := p.m_NumTrees_ge
  have h2 := p.m_NumTrees_lt
  have h3 := ds.Size_lt
  omega

/-- C11 (as the code has it): construction from parameters with `m_NumTrees ≤ 0` does
not fail. The constructor has no check of the tree count; its loop does not run, and a
builder with no trainer, an empty forest, an empty subset list and the trained flag
false is produced. -/
theorem construct_nonpositive_tree_count (C : Collaborators σ τ Tree)
    (p : ForestBuilderParameters) (h : p.m_NumTrees ≤ 0) :
    DecisionForestBuilder.construct C p =
      { m_DataSet := none, m_DataSetIndex := none, m_DataSubsetsIdx := [],
        m_Parameters := p, m_TreeBuilders := [], m_Forest := [],
        m_isForestTrained := false, m_TimeStartedBuild := none,
        m_TimeFinishedBuild := none } := by
  have ht : p.m_NumTrees.toNat = 0 := by omega
  have := construct_trainers C p
  rw [ht] at this
  simp only [DecisionForestBuilder.construct] at this ⊢
  rw [this]
  rfl

/-- C11, counterexample to the claim as stated: the constructor run on a tree count of
0 and on a tree count of -1. In both cases it returns a builder: one without trainers,
on which `Build` can be called (it returns true for 0 trees and false for -1). -/
theorem construct_succeeds_without_trees :
    (demoParameters 0).m_NumTrees = 0 ∧ (demoSignedParameters (-1)).m_NumTrees = -1 ∧
    (DecisionForestBuilder.construct (demo (fun _ => false)) (demoParameters 0)).m_TreeBuilders
      = [] ∧
    (DecisionForestBuilder.construct (demo (fun _ => false))
      (demoSignedParameters (-1))).m_TreeBuilders = [] ∧
    (Build (demo (fun _ => false))
        (DecisionForestBuilder.construct (demo (fun _ => false)) (demoParameters 0))
        (demoDataSet 4) ⟨0, 0⟩).map (fun r => r.ret) = some true ∧
    (Build (demo (fun _ => false))
        (DecisionForestBuilder.construct (demo (fun _ => false)) (demoSignedParameters (-1)))
        (demoDataSet 4) ⟨0, 0⟩).map (fun r => r.ret) = some false := by
  decide

/-- Witness for C11 (as the code has it): a tree count of -3. -/
theorem construct_nonpositive_tree_count_witness :
    (demoSignedParameters (-3)).m_NumTrees ≤ 0 ∧
    DecisionForestBuilder.construct (demo (fun _ => false)) (demoSignedParameters (-3)) =
      { m_DataSet := none, m_DataSetIndex := none, m_DataSubsetsIdx := [],
        m_Parameters := demoSignedParameters (-3), m_TreeBuilders := [], m_Forest := [],
        m_isForestTrained := false, m_TimeStartedBuild := none,
        m_TimeFinishedBuild := none } :=
  ⟨by decide,
    construct_nonpositive_tree_count (demo (fun _ => false)) (demoSignedParameters (-3))
      (by decide)⟩

/-- C12: for parameters with `N = m_NumTrees ≥ 1`, the constructor yields a builder that
holds exactly `N` tree trainers, each one built from these same parameters, with an empty
forest, an empty subset list and the trained flag false (and the parameters stored). -/
theorem construct_positive_tree_count (C : Collaborators σ τ Tree)
    (p : ForestBuilderParameters) (h : 1 ≤ p.m_NumTrees) :
    (DecisionForestBuilder.construct C p).m_TreeBuilders.length = p.m_NumTrees.toNat ∧
    ((DecisionForestBuilder.construct C p).m_TreeBuilders.length : Int) = p.m_NumTrees ∧
    (∀ t ∈ (DecisionForestBuilder.construct C p).m_TreeBuilders, t = C.newTreeBuilder p) ∧
    GetForest (DecisionForestBuilder.construct C p) = [] ∧
    (DecisionForestBuilder.construct C p).m_DataSubsetsIdx = [] ∧
    (DecisionForestBuilder.construct C p).m_isForestTrained = false ∧
    (DecisionForestBuilder.construct C p).m_Parameters = p := by
  have ht := construct_trainers C p
  refine ⟨by rw [ht]; simp, by rw [ht]; simp; omega, ?_, rfl, rfl, rfl, rfl⟩
  intro t hx
  rw [ht] at hx
  exact List.eq_of_mem_replicate hx

/-- Witness for C12: three trees. -/
theorem construct_positive_tree_count_witness :
    1 ≤ (demoParameters 3).m_NumTrees ∧
    (DecisionForestBuilder.construct (demo (fun _ => false))
      (demoParameters 3)).m_TreeBuilders.length = (demoParameters 3).m_NumTrees.toNat ∧
    ((DecisionForestBuilder.construct (demo (fun _ => false))
      (demoParameters 3)).m_TreeBuilders.length : Int) = (demoParameters 3).m_NumTrees ∧
    (∀ t ∈ (DecisionForestBuilder.construct (demo (fun _ => false))
        (demoParameters 3)).m_TreeBuilders,
      t = (demo (fun _ => false)).newTreeBuilder (demoParameters 3)) ∧
    GetForest (DecisionForestBuilder.construct (demo (fun _ => false)) (demoParameters 3)) = [] ∧
    (DecisionForestBuilder.construct (demo (fun _ => false))
      (demoParameters 3)).m_DataSubsetsIdx = [] ∧
    (DecisionForestBuilder.construct (demo (fun _ => false))
      (demoParameters 3)).m_isForestTrained = false ∧
    (DecisionForestBuilder.construct (demo (fun _ => false))
      (demoParameters 3)).m_Parameters = demoParameters 3 :=
  ⟨by decide,
    construct_positive_tree_count (demo (fun _ => false)) (demoParameters 3) (by decide)⟩

/-! ## The size check, and runs of `Build` on any builder -/

/-- A run of `Build` that passes the size check, with what the sampling step appended
and what the call leaves of the parameters (see `Build_run`). -/
theorem Build_run_frame (C : Collaborators σ τ Tree) (b : DecisionForestBuilder τ Tree)
    (ds : AbstractDataSet) (w : σ)
    (hchk : ¬ (b.m_Parameters.m_NumTrees % 2 ^ 64).toNat > ds.Size)
    (hlen : b.m_TreeBuilders.length ≤
      b.m_DataSubsetsIdx.length + b.m_Parameters.m_NumTrees.toNat) :
    ∃ r new, Build C b ds w = some r ∧
      r.self.m_DataSubsetsIdx = b.m_DataSubsetsIdx ++ new ∧
      new.length = b.m_Parameters.m_NumTrees.toNat ∧
      r.calls.map (fun c => c.index) = List.range b.m_TreeBuilders.length ∧
      (∀ c ∈ r.calls, (b.m_DataSubsetsIdx ++ new)[c.index]? = some c.view) ∧
      r.ret = r.calls.all (fun c => c.TreeSuccess) ∧
      r.self.m_isForestTrained = r.ret ∧
      r.self.m_Forest = b.m_Forest ++ successfulTrees C r.calls r.self.m_TreeBuilders ∧
      r.self.m_TreeBuilders.length = b.m_TreeBuilders.length ∧
      r.self.m_Parameters = b.m_Parameters := by
  obtain ⟨b1, w1, new, hrp, hsub, hnew, htb, hfor, hpar, -, -⟩ :=
    RandomPartition_spec C { b with m_DataSet := some ds } ds w rfl
  have hlen1 : b1.m_TreeBuilders.length ≤ b1.m_DataSubsetsIdx.length := by
    rw [htb, hsub]; simpa [hnew] using hlen
  obtain ⟨s, hs, hinv⟩ := trainLoop_spec C
    ⟨true, { b1 with m_TimeStartedBuild := some (C.GetCurrentEpochTime w1).1 },
      (C.GetCurrentEpochTime w1).2, []⟩ rfl rfl hlen1
  obtain ⟨i1, i2, ⟨-, -, i3, -⟩, i4, i5, i6, i7⟩ := hinv
  dsimp only at hs i1 i2 i3 i4 i5 i6 i7 hsub hnew htb hfor hpar
  have hB : Build C b ds w = some
      ⟨s.Success,
        { s.self with
          m_TimeFinishedBuild := some (C.GetCurrentEpochTime s.world).1
          m_isForestTrained := s.Success },
        (C.GetCurrentEpochTime s.world).2, s.calls⟩ := by
    simp only [Build, if_neg hchk, hrp]
    rw [hs]
  refine ⟨_, new, hB, by rw [← hsub]; exact i1, hnew, by rw [i4, htb], ?_, i6, rfl,
    by rw [i7, hfor], by rw [i2, htb], by rw [← hpar]; exact i3⟩
  rw [← hsub]
  exact i5

/-- C13 (as the code has it): when `Build` aborts on the size check, the call has done
one assignment, `m_DataSet = DataSet` (line 125, ahead of the check): the builder after
the call is the builder before it with the dataset reference replaced, every other
field (full index, subset list, parameters, trainers, forest, trained flag, timestamps)
is as before, and nothing outside the builder has been used. -/
theorem Build_abort_replaces_only_dataset (C : Collaborators σ τ Tree)
    (b : DecisionForestBuilder τ Tree) (ds : AbstractDataSet) (w : σ)
    (hgt : (b.m_Parameters.m_NumTrees % 2 ^ 64).toNat > ds.Size) :
    ∃ r, Build C b ds w = some r ∧ r.ret = false ∧
      r.self = { b with m_DataSet := some ds } ∧
      (b.m_DataSet = some ds → r.self = b) ∧
      r.world = w ∧ r.calls = [] := by
  refine ⟨⟨false, { b with m_DataSet := some ds }, w, []⟩, ?_, rfl, rfl, ?_, rfl, rfl⟩
  · simp only [Build, if_pos hgt]
  · intro h
    cases b
    simp only at h
    simp [h]

/-- C13, counterexample to the claim as stated: a freshly constructed builder for 10
trees and a dataset of 5 samples. Before the call the dataset reference is null; the
call aborts on the size check, and afterwards the reference holds the dataset. -/
theorem Build_abort_sets_dataset_reference :
    (DecisionForestBuilder.construct (demo (fun _ => false)) (demoParameters 10)).m_DataSet
      = none ∧
    (Build (demo (fun _ => false))
        (DecisionForestBuilder.construct (demo (fun _ => false)) (demoParameters 10))
        (demoDataSet 5) ⟨0, 0⟩).map
      (fun r => (r.ret, r.calls, r.self.m_DataSet)) = some (false, [], some (demoDataSet 5)) := by
  decide

/-- Witness for C13 (as the code has it): 10 trees, 5 samples. -/
theorem Build_abort_replaces_only_dataset_witness :
    (((DecisionForestBuilder.construct (demo (fun _ => false))
        (demoParameters 10)).m_Parameters.m_NumTrees % 2 ^ 64).toNat > (demoDataSet 5).Size) ∧
    ∃ r, Build (demo (fun _ => false))
        (DecisionForestBuilder.construct (demo (fun _ => false)) (demoParameters 10))
        (demoDataSet 5) ⟨0, 0⟩ = some r ∧ r.ret = false ∧
      r.self = { DecisionForestBuilder.construct (demo (fun _ => false)) (demoParameters 10) with
        m_DataSet := some (demoDataSet 5) } ∧
      ((DecisionForestBuilder.construct (demo (fun _ => false)) (demoParameters 10)).m_DataSet
          = some (demoDataSet 5) →
        r.self = DecisionForestBuilder.construct (demo (fun _ => false)) (demoParameters 10)) ∧
      r.world = ⟨0, 0⟩ ∧ r.calls = [] :=
  ⟨by decide,
    Build_abort_replaces_only_dataset (demo (fun _ => false))
      (DecisionForestBuilder.construct (demo (fun _ => false)) (demoParameters 10))
      (demoDataSet 5) ⟨0, 0⟩ (by decide)⟩

/-- C14: in the `UniformPartition` branch of `RandomPartition`, for a dataset of size `S`,
a shuffle that keeps the length of the vector and a tree count `T ≥ 1`: the divisor of
lines 62-63 is not zero, every position `i * SubsetSize + j` with `i < T` and
`j < SubsetSize` is below `S` and its read is defined, every position
`T * SubsetSize + RemCtr` with `RemCtr < Remainder` (the values at which line 73 reads)
is below `S` and its read is defined, and the whole step is defined (the bound `T ≤ S`
is not needed). With `T = 0` the branch divides by zero: the step is undefined. -/
theorem uniformPartition_reads_in_bounds (C : Collaborators σ τ Tree)
    (b : DecisionForestBuilder τ Tree) (ds : AbstractDataSet) (w : σ)
    (hds : b.m_DataSet = some ds)
    (hshuffle : ∀ v w', (C.shuffle v w').1.length = v.length) :
    (1 ≤ b.m_Parameters.m_NumTrees →
      b.m_Parameters.m_NumTrees ≠ 0 ∧
      (∀ i j : Nat, (i : Int) < b.m_Parameters.m_NumTrees →
        (j : Int) < Int.tdiv ds.Size b.m_Parameters.m_NumTrees →
        (i : Int) * Int.tdiv ds.Size b.m_Parameters.m_NumTrees + j < ds.Size ∧
        ∃ x, vectorAt (C.shuffle (fillIndices (ds.Size : Int)) w).1
          ((i : Int) * Int.tdiv ds.Size b.m_Parameters.m_NumTrees + j) = some x) ∧
      (∀ RemCtr : Nat, (RemCtr : Int) < Int.tmod ds.Size b.m_Parameters.m_NumTrees →
        b.m_Parameters.m_NumTrees * Int.tdiv ds.Size b.m_Parameters.m_NumTrees + RemCtr
          < ds.Size ∧
        ∃ x, vectorAt (C.shuffle (fillIndices (ds.Size : Int)) w).1
          (b.m_Parameters.m_NumTrees * Int.tdiv ds.Size b.m_Parameters.m_NumTrees + RemCtr)
          = some x) ∧
      ∃ r, RandomPartitionWith TreeDataSamplingType.UniformPartition C b w = some r) ∧
    (b.m_Parameters.m_NumTrees = 0 →
      RandomPartitionWith TreeDataSamplingType.UniformPartition C b w = none) := by
  have hlen : (C.shuffle (fillIndices (ds.Size : Int)) w).1.length = ds.Size := by
    rw [hshuffle, fillIndices_eq]; simp
  constructor
  · intro hT
    obtain ⟨T, hTN⟩ : ∃ T : Nat, b.m_Parameters.m_NumTrees = (T : Int) :=
      ⟨b.m_Parameters.m_NumTrees.toNat, (Int.toNat_of_nonneg (by omega)).symm⟩
    have hT1 : 1 ≤ T := by omega
    have hq : Int.tdiv (ds.Size : Int) (T : Int) = ((ds.Size / T : Nat) : Int) :=
      (Int.ofNat_tdiv ds.Size T).symm
    have hr : Int.tmod (ds.Size : Int) (T : Int) = ((ds.Size % T : Nat) : Int) :=
      (Int.ofNat_tmod ds.Size T).symm
    have hdm : T * (ds.Size / T) + ds.Size % T = ds.Size := Nat.div_add_mod ds.Size T
    obtain ⟨b1, w1, h1, -⟩ := RandomPartitionWith_uniform C b ds w hds hT hshuffle
    rw [hTN, hq, hr]
    refine ⟨by omega, ?_, ?_, ⟨(b1, w1), h1⟩⟩
    · intro i j hi hj
      have hi' : i < T := by omega
      have hj' : j < ds.Size / T := by omega
      have hpos : i * (ds.Size / T) + j < ds.Size :=
        calc i * (ds.Size / T) + j < i * (ds.Size / T) + ds.Size / T := by omega
          _ = (i + 1) * (ds.Size / T) := by ring
          _ ≤ T * (ds.Size / T) := Nat.mul_le_mul_right _ hi'
          _ ≤ ds.Size := Nat.mul_div_le ds.Size T
      have hcast : (i : Int) * ((ds.Size / T : Nat) : Int) + (j : Int)
          = ((i * (ds.Size / T) + j : Nat) : Int) := by push_cast; ring
      rw [hcast, vectorAt_natCast]
      exact ⟨by exact_mod_cast hpos, _, List.getElem?_eq_getElem (by rw [hlen]; exact hpos)⟩
    · intro c hc
      have hc' : c < ds.Size % T := by omega
      have hpos : T * (ds.Size / T) + c < ds.Size := by omega
      have hcast : (T : Int) * ((ds.Size / T : Nat) : Int) + (c : Int)
          = ((T * (ds.Size / T) + c : Nat) : Int) := by push_cast; ring
      rw [hcast, vectorAt_natCast]
      exact ⟨by exact_mod_cast hpos, _, List.getElem?_eq_getElem (by rw [hlen]; exact hpos)⟩
  · intro h0
    simp only [RandomPartitionWith, hds, uniformPartition, h0, if_true, Option.map_none']

/-- Witness for C14: 3 trees on 10 samples, with the example collaborators; and, for the
division by zero, 0 trees on 3 samples. -/
theorem uniformPartition_reads_in_bounds_witness :
    ((demoBuilder 3 10).m_DataSet = some (demoDataSet 10) ∧
      ∀ v w', ((demo (fun _ => false)).shuffle v w').1.length = v.length) ∧
    ((1 ≤ (demoBuilder 3 10).m_Parameters.m_NumTrees →
      (demoBuilder 3 10).m_Parameters.m_NumTrees ≠ 0 ∧
      (∀ i j : Nat, (i : Int) < (demoBuilder 3 10).m_Parameters.m_NumTrees →
        (j : Int) < Int.tdiv (demoDataSet 10).Size (demoBuilder 3 10).m_Parameters.m_NumTrees →
        (i : Int) * Int.tdiv (demoDataSet 10).Size (demoBuilder 3 10).m_Parameters.m_NumTrees + j
          < (demoDataSet 10).Size ∧
        ∃ x, vectorAt
          ((demo (fun _ => false)).shuffle (fillIndices ((demoDataSet 10).Size : Int)) ⟨3, 0⟩).1
          ((i : Int) * Int.tdiv (demoDataSet 10).Size (demoBuilder 3 10).m_Parameters.m_NumTrees
            + j) = some x) ∧
      (∀ RemCtr : Nat,
        (RemCtr : Int) < Int.tmod (demoDataSet 10).Size (demoBuilder 3 10).m_Parameters.m_NumTrees →
        (demoBuilder 3 10).m_Parameters.m_NumTrees *
            Int.tdiv (demoDataSet 10).Size (demoBuilder 3 10).m_Parameters.m_NumTrees + RemCtr
          < (demoDataSet 10).Size ∧
        ∃ x, vectorAt
          ((demo (fun _ => false)).shuffle (fillIndices ((demoDataSet 10).Size : Int)) ⟨3, 0⟩).1
          ((demoBuilder 3 10).m_Parameters.m_NumTrees *
            Int.tdiv (demoDataSet 10).Size (demoBuilder 3 10).m_Parameters.m_NumTrees + RemCtr)
          = some x) ∧
      ∃ r, RandomPartitionWith TreeDataSamplingType.UniformPartition (demo (fun _ => false))
        (demoBuilder 3 10) ⟨3, 0⟩ = some r) ∧
    ((demoBuilder 3 10).m_Parameters.m_NumTrees = 0 →
      RandomPartitionWith TreeDataSamplingType.UniformPartition (demo (fun _ => false))
        (demoBuilder 3 10) ⟨3, 0⟩ = none)) ∧
    ((demoBuilder 0 3).m_Parameters.m_NumTrees = 0 ∧
      RandomPartitionWith TreeDataSamplingType.UniformPartition (demo (fun _ => false))
        (demoBuilder 0 3) ⟨0, 0⟩ = none) :=
  ⟨⟨rfl, demo_shuffle_length _⟩,
    uniformPartition_reads_in_bounds (demo (fun _ => false)) (demoBuilder 3 10)
      (demoDataSet 10) ⟨3, 0⟩ rfl (demo_shuffle_length _),
    by decide,
    (uniformPartition_reads_in_bounds (demo (fun _ => false)) (demoBuilder 0 3)
      (demoDataSet 3) ⟨0, 0⟩ rfl (demo_shuffle_length _)).2 (by decide)⟩

/-- The sampling step as shipped, for a shuffle that returns a permutation and a draw
that returns an element of the non-empty vector it is given: every view it appends has
as many indices as the dataset has samples, all of them in range. -/
theorem RandomPartition_views (C : Collaborators σ τ Tree) (b : DecisionForestBuilder τ Tree)
    (ds : AbstractDataSet) (w : σ) (hds : b.m_DataSet = some ds)
    (hshuffle : ∀ v w', (C.shuffle v w').1.Perm v)
    (hdraw : ∀ v w', v ≠ [] → (C.GetRandomElement v w').1 ∈ v) :
    ∃ b1 w1 new, RandomPartition C b w = some (b1, w1) ∧
      b1.m_DataSubsetsIdx = b.m_DataSubsetsIdx ++ new ∧
      ∀ v ∈ new, v.m_Idx.length = ds.Size ∧ ∀ x ∈ v.m_Idx, 0 ≤ x ∧ x < ds.Size := by
  have hperm : (C.shuffle (fillIndices (ds.Size : Int)) w).1.Perm
      ((List.range ds.Size).map Int.ofNat) := by
    rw [← fillIndices_eq]; exact hshuffle _ w
  obtain ⟨new, h1, -, h3⟩ := baggingPartition_spec C ds
    (C.shuffle (fillIndices (ds.Size : Int)) w).1 (ds.Size : Int) b.m_Parameters.m_NumTrees
    b.m_DataSubsetsIdx (C.shuffle (fillIndices (ds.Size : Int)) w).2
  refine ⟨_, _, new, RandomPartitionWith_bagging C b ds w hds, h1, ?_⟩
  intro v hv
  obtain ⟨u, rfl⟩ := h3 v hv
  refine ⟨by rw [baggingDraws_length]; simp, ?_⟩
  intro x hx
  have hne : 0 < ((ds.Size : Int)).toNat →
      (C.shuffle (fillIndices (ds.Size : Int)) w).1 ≠ [] := by
    intro hpos heq
    have := hperm.length_eq
    rw [heq] at this
    simp at this hpos
    omega
  have hx' := baggingDraws_mem C _ (ds.Size : Int) u
    (fun u' hpos => hdraw _ u' (hne hpos)) x hx
  exact (mem_range_cast ds.Size x).mp (hperm.mem_iff.mp hx')

/-- C15: `RandomPartition` as shipped is its `Bagging` branch, whatever the builder (its
parameters, its dataset) and the state of the outside world, so `Build` never runs the
other two branches. For a freshly constructed builder and a dataset of `S` samples that
passes the size check (with a shuffle that returns a permutation and a draw that
returns an element of the non-empty vector it is given), `Build` returns, and every view
it hands to a trainer has exactly `S` indices, all in `[0, S)`. -/
theorem Build_samples_by_bagging (C : Collaborators σ τ Tree)
    (p : ForestBuilderParameters) (ds : AbstractDataSet) (w : σ)
    (hchk : ¬ (p.m_NumTrees % 2 ^ 64).toNat > ds.Size)
    (hshuffle : ∀ v w', (C.shuffle v w').1.Perm v)
    (hdraw : ∀ v w', v ≠ [] → (C.GetRandomElement v w').1 ∈ v) :
    SamplType = TreeDataSamplingType.Bagging ∧
    (∀ (b : DecisionForestBuilder τ Tree) (w' : σ),
      RandomPartition C b w' = RandomPartitionWith TreeDataSamplingType.Bagging C b w') ∧
    ∃ r, Build C (DecisionForestBuilder.construct C p) ds w = some r ∧
      r.calls.length = p.m_NumTrees.toNat ∧
      ∀ c ∈ r.calls, c.view.m_Idx.length = ds.Size ∧
        ∀ x ∈ c.view.m_Idx, 0 ≤ x ∧ x < ds.Size := by
  refine ⟨rfl, fun _ _ => rfl, ?_⟩
  obtain ⟨h0, hle⟩ := of_check_passes p ds hchk
  obtain ⟨r, b1, w1, hB, hrp, -, -, hidx, hview, -⟩ := Build_fresh C p ds w h0 hle
  obtain ⟨b1', w1', new, hrp', hsub, hnew⟩ := RandomPartition_views C
    { DecisionForestBuilder.construct C p with m_DataSet := some ds } ds w rfl hshuffle hdraw
  rw [hrp] at hrp'
  obtain ⟨rfl, rfl⟩ := Prod.mk.inj (Option.some.inj hrp')
  refine ⟨r, hB, ?_, ?_⟩
  · have := congrArg List.length hidx
    simpa using this
  · intro c hc
    apply hnew
    have hmem : c.view ∈ b1.m_DataSubsetsIdx :=
      List.mem_iff_getElem?.mpr ⟨c.index, hview c hc⟩
    rw [hsub] at hmem
    simpa [DecisionForestBuilder.construct] using hmem

/-- Witness for C15: three trees on four samples, with the example collaborators; the
three views handed over are `[0,1,1,2]`, `[2,3,3,0]` and `[0,1,1,2]`. -/
theorem Build_samples_by_bagging_witness :
    ((¬ ((demoParameters 3).m_NumTrees % 2 ^ 64).toNat > (demoDataSet 4).Size) ∧
      (∀ v w', ((demo (fun _ => false)).shuffle v w').1.Perm v) ∧
      ∀ v w', v ≠ [] → ((demo (fun _ => false)).GetRandomElement v w').1 ∈ v) ∧
    (SamplType = TreeDataSamplingType.Bagging ∧
      (∀ (b : DecisionForestBuilder (Option Nat) Nat) (w' : DemoWorld),
        RandomPartition (demo (fun _ => false)) b w' =
          RandomPartitionWith TreeDataSamplingType.Bagging (demo (fun _ => false)) b w') ∧
      ∃ r, Build (demo (fun _ => false))
          (DecisionForestBuilder.construct (demo (fun _ => false)) (demoParameters 3))
          (demoDataSet 4) ⟨0, 0⟩ = some r ∧
        r.calls.length = (demoParameters 3).m_NumTrees.toNat ∧
        ∀ c ∈ r.calls, c.view.m_Idx.length = (demoDataSet 4).Size ∧
          ∀ x ∈ c.view.m_Idx, 0 ≤ x ∧ x < (demoDataSet 4).Size) ∧
    (Build (demo (fun _ => false))
        (DecisionForestBuilder.construct (demo (fun _ => false)) (demoParameters 3))
        (demoDataSet 4) ⟨0, 0⟩).map (fun r => r.calls.map (fun c => c.view.m_Idx))
      = some [[0, 1, 1, 2], [2, 3, 3, 0], [0, 1, 1, 2]] :=
  ⟨⟨by decide, demo_shuffle_perm _, fun v w' => demo_draw_mem _ v w'⟩,
    Build_samples_by_bagging (demo (fun _ => false)) (demoParameters 3) (demoDataSet 4)
      ⟨0, 0⟩ (by decide) (demo_shuffle_perm _) (fun v w' => demo_draw_mem _ v w'),
    by decide⟩

/-- C16: for a negative tree count (an `int`), the conversion of line 126 gives
`m_NumTrees + 2 ^ 64`, which is above every size below `2 ^ 64 - 2 ^ 31`; so on every
dataset `Build`, on the freshly constructed builder, returns false with no view sampled,
no trainer invoked, the forest empty and the outside world untouched; and the
constructor has created no trainer. -/
theorem Build_negative_tree_count (C : Collaborators σ τ Tree)
    (p : ForestBuilderParameters) (ds : AbstractDataSet) (w : σ)
    (hneg : p.m_NumTrees < 0) :
    p.m_NumTrees % 2 ^ 64 = p.m_NumTrees + 2 ^ 64 ∧
    (∀ size : Nat, size < 2 ^ 64 - 2 ^ 31 → (p.m_NumTrees % 2 ^ 64).toNat > size) ∧
    (p.m_NumTrees % 2 ^ 64).toNat > ds.Size ∧
    (∃ r, Build C (DecisionForestBuilder.construct C p) ds w = some r ∧
      r.ret = false ∧ r.self.m_DataSubsetsIdx = [] ∧ r.self.m_DataSetIndex = none ∧
      r.calls = [] ∧ GetForest r.self = [] ∧ r.world = w) ∧
    (DecisionForestBuilder.construct C p).m_TreeBuilders = [] := by
  have h1 := p.m_NumTrees_ge
  have h3 := ds.Size_lt
  have hmod : p.m_NumTrees % 2 ^ 64 = p.m_NumTrees + 2 ^ 64 := by omega
  have hgt : (p.m_NumTrees % 2 ^ 64).toNat > ds.Size := by omega
  refine ⟨hmod, by intro size hs; omega, hgt, ?_, ?_⟩
  · refine ⟨⟨false, { DecisionForestBuilder.construct C p with m_DataSet := some ds }, w, []⟩,
      ?_, rfl, rfl, rfl, rfl, rfl, rfl⟩
    have hp : (DecisionForestBuilder.construct C p).m_Parameters = p := rfl
    simp only [Build, hp, if_pos hgt]
  · rw [construct_trainers]
    have : p.m_NumTrees.toNat = 0 := by omega
    rw [this]
    rfl

/-- Witness for C16: a tree count of -1 on a dataset of 4 samples; the converted count is
`2 ^ 64 - 1`. -/
theorem Build_negative_tree_count_witness :
    (demoSignedParameters (-1)).m_NumTrees < 0 ∧
    ((demoSignedParameters (-1)).m_NumTrees % 2 ^ 64
        = (demoSignedParameters (-1)).m_NumTrees + 2 ^ 64 ∧
      (∀ size : Nat, size < 2 ^ 64 - 2 ^ 31 →
        ((demoSignedParameters (-1)).m_NumTrees % 2 ^ 64).toNat > size) ∧
      ((demoSignedParameters (-1)).m_NumTrees % 2 ^ 64).toNat > (demoDataSet 4).Size ∧
      (∃ r, Build (demo (fun _ => false))
          (DecisionForestBuilder.construct (demo (fun _ => false)) (demoSignedParameters (-1)))
          (demoDataSet 4) ⟨0, 0⟩ = some r ∧
        r.ret = false ∧ r.self.m_DataSubsetsIdx = [] ∧ r.self.m_DataSetIndex = none ∧
        r.calls = [] ∧ GetForest r.self = [] ∧ r.world = ⟨0, 0⟩) ∧
      (DecisionForestBuilder.construct (demo (fun _ => false))
        (demoSignedParameters (-1))).m_TreeBuilders = []) ∧
    ((demoSignedParameters (-1)).m_NumTrees % 2 ^ 64).toNat = 18446744073709551615 :=
  ⟨by decide,
    Build_negative_tree_count (demo (fun _ => false)) (demoSignedParameters (-1))
      (demoDataSet 4) ⟨0, 0⟩ (by decide),
    by decide⟩

/-- C17: for a builder constructed with `m_NumTrees = 0` and any dataset, an empty one
included, `Build` passes the size check, invokes no trainer, leaves the forest empty and
returns true; `DoneBuild` is true afterwards. -/
theorem Build_zero_trees (C : Collaborators σ τ Tree)
    (p : ForestBuilderParameters) (ds : AbstractDataSet) (w : σ)
    (hzero : p.m_NumTrees = 0) :
    (¬ (p.m_NumTrees % 2 ^ 64).toNat > ds.Size) ∧
    ∃ r, Build C (DecisionForestBuilder.construct C p) ds w = some r ∧
      r.calls = [] ∧ GetForest r.self = [] ∧ r.ret = true ∧ DoneBuild r.self = true := by
  have hchk := check_passes p ds (by omega) (by omega)
  obtain ⟨r, b1, w1, hB, -, -, -, hidx, -, hret, hflag, hforest, -⟩ :=
    Build_fresh C p ds w (by omega) (by omega)
  have hcalls : r.calls = [] := by
    have := congrArg List.length hidx
    rw [hzero] at this
    simpa using this
  refine ⟨hchk, r, hB, hcalls, ?_, ?_, ?_⟩
  · rw [GetForest, hforest, hcalls]; rfl
  · rw [hret, hcalls]; rfl
  · rw [DoneBuild, hflag, hret, hcalls]; rfl

/-- Witness for C17: no tree, on the empty dataset. -/
theorem Build_zero_trees_witness :
    ((demoParameters 0).m_NumTrees = 0 ∧ (demoDataSet 0).Size = 0) ∧
    (¬ ((demoParameters 0).m_NumTrees % 2 ^ 64).toNat > (demoDataSet 0).Size) ∧
    ∃ r, Build (demo (fun _ => true))
        (DecisionForestBuilder.construct (demo (fun _ => true)) (demoParameters 0))
        (demoDataSet 0) ⟨0, 0⟩ = some r ∧
      r.calls = [] ∧ GetForest r.self = [] ∧ r.ret = true ∧ DoneBuild r.self = true :=
  ⟨⟨by decide, by decide⟩,
    Build_zero_trees (demo (fun _ => true)) (demoParameters 0) (demoDataSet 0) ⟨0, 0⟩
      (by decide)⟩

/-- C18: `Build` does not reset what it has accumulated. When it is called a second time
on the builder that a first call has left (`N` trees, both datasets passing the size
check), the subset list, of `N` entries after the first call, has `2 N` entries after the
second, the first `N` being those of the first call; the second call invokes the
trainers at the indices `0, ..., N - 1` with the views at these positions, i.e. the views
sampled during the first call; and the forest after the second call is the forest of the
first followed by the trees of the trainers that succeeded in the second, so that its
length is the number of successes of the first call plus that of the second. -/
theorem second_Build_accumulates (C : Collaborators σ τ Tree)
    (p : ForestBuilderParameters) (ds ds2 : AbstractDataSet) (w : σ)
    (hchk : ¬ (p.m_NumTrees % 2 ^ 64).toNat > ds.Size)
    (hchk2 : ¬ (p.m_NumTrees % 2 ^ 64).toNat > ds2.Size) :
    ∃ r1 r2, Build C (DecisionForestBuilder.construct C p) ds w = some r1 ∧
      Build C r1.self ds2 r1.world = some r2 ∧
      r1.self.m_DataSubsetsIdx.length = p.m_NumTrees.toNat ∧
      r2.self.m_DataSubsetsIdx.length = 2 * p.m_NumTrees.toNat ∧
      r2.self.m_DataSubsetsIdx.take p.m_NumTrees.toNat = r1.self.m_DataSubsetsIdx ∧
      r2.calls.map (fun c => c.index) = List.range p.m_NumTrees.toNat ∧
      (∀ c ∈ r2.calls, r1.self.m_DataSubsetsIdx[c.index]? = some c.view) ∧
      GetForest r2.self =
        GetForest r1.self ++ successfulTrees C r2.calls r2.self.m_TreeBuilders ∧
      (GetForest r2.self).length =
        r1.calls.countP (fun c => c.TreeSuccess) + r2.calls.countP (fun c => c.TreeSuccess) := by
  have hn : (DecisionForestBuilder.construct C p).m_TreeBuilders.length = p.m_NumTrees.toNat := by
    rw [construct_trainers]; simp
  obtain ⟨r1, new1, hB1, hsub1, hnew1, hidx1, -, -, -, hfor1, htb1, hpar1⟩ :=
    Build_run_frame C (DecisionForestBuilder.construct C p) ds w hchk
      (by rw [hn]; exact Nat.le_add_left _ _)
  have hpar1' : r1.self.m_Parameters = p := hpar1
  have hsub1' : r1.self.m_DataSubsetsIdx = new1 := by
    simpa [DecisionForestBuilder.construct] using hsub1
  have hnew1' : new1.length = p.m_NumTrees.toNat := hnew1
  have htb1' : r1.self.m_TreeBuilders.length = p.m_NumTrees.toNat := by rw [htb1, hn]
  have hfor1' : r1.self.m_Forest = successfulTrees C r1.calls r1.self.m_TreeBuilders := by
    simpa [DecisionForestBuilder.construct] using hfor1
  obtain ⟨r2, new2, hB2, hsub2, hnew2, hidx2, hview2, -, -, hfor2, htb2, -⟩ :=
    Build_run_frame C r1.self ds2 r1.world (by rw [hpar1']; exact hchk2)
      (by rw [htb1', hsub1', hnew1', hpar1']; exact Nat.le_add_left _ _)
  rw [hpar1'] at hnew2
  rw [htb1'] at hidx2
  have hlt1 : ∀ c ∈ r1.calls, c.index < r1.self.m_TreeBuilders.length := by
    intro c hc
    have : c.index ∈ List.range (DecisionForestBuilder.construct C p).m_TreeBuilders.length := by
      rw [← hidx1]; exact List.mem_map_of_mem _ hc
    rw [htb1, hn]
    rw [hn] at this
    exact List.mem_range.mp this
  have hlt2 : ∀ c ∈ r2.calls, c.index < p.m_NumTrees.toNat := by
    intro c hc
    have : c.index ∈ List.range p.m_NumTrees.toNat := by
      rw [← hidx2]; exact List.mem_map_of_mem _ hc
    exact List.mem_range.mp this
  refine ⟨r1, r2, hB1, hB2, by rw [hsub1', hnew1'], ?_, ?_, hidx2, ?_, hfor2, ?_⟩
  · rw [hsub2, List.length_append, hsub1', hnew1', hnew2]; omega
  · rw [hsub2]
    exact List.take_left' (by rw [hsub1', hnew1'])
  · intro c hc
    have h := hview2 c hc
    rwa [List.getElem?_append_left (by rw [hsub1', hnew1']; exact hlt2 c hc)] at h
  · rw [GetForest, hfor2, List.length_append, hfor1',
      successfulTrees_length C r1.calls _ hlt1,
      successfulTrees_length C r2.calls _ (by
        intro c hc; rw [htb2, htb1']; exact hlt2 c hc)]

/-- Witness for C18: two trees on three samples, called twice, the very first trainer
invocation failing. After the second call the subset list has four entries, the views
handed over in the second call are the first two of them (in the order sampled by the
first call), not the two sampled last, and the forest holds the tree of the first call
followed by the two trees of the second. -/
theorem second_Build_accumulates_witness :
    ((¬ ((demoParameters 2).m_NumTrees % 2 ^ 64).toNat > (demoDataSet 3).Size) ∧
      (¬ ((demoParameters 2).m_NumTrees % 2 ^ 64).toNat > (demoDataSet 3).Size)) ∧
    (∃ r1 r2, Build (demo (fun k => k == 0))
        (DecisionForestBuilder.construct (demo (fun k => k == 0)) (demoParameters 2))
        (demoDataSet 3) ⟨0, 0⟩ = some r1 ∧
      Build (demo (fun k => k == 0)) r1.self (demoDataSet 3) r1.world = some r2 ∧
      r1.self.m_DataSubsetsIdx.length = (demoParameters 2).m_NumTrees.toNat ∧
      r2.self.m_DataSubsetsIdx.length = 2 * (demoParameters 2).m_NumTrees.toNat ∧
      r2.self.m_DataSubsetsIdx.take (demoParameters 2).m_NumTrees.toNat
        = r1.self.m_DataSubsetsIdx ∧
      r2.calls.map (fun c => c.index) = List.range (demoParameters 2).m_NumTrees.toNat ∧
      (∀ c ∈ r2.calls, r1.self.m_DataSubsetsIdx[c.index]? = some c.view) ∧
      GetForest r2.self =
        GetForest r1.self ++
          successfulTrees (demo (fun k => k == 0)) r2.calls r2.self.m_TreeBuilders ∧
      (GetForest r2.self).length =
        r1.calls.countP (fun c => c.TreeSuccess) + r2.calls.countP (fun c => c.TreeSuccess)) ∧
    ((Build (demo (fun k => k == 0))
        (DecisionForestBuilder.construct (demo (fun k => k == 0)) (demoParameters 2))
        (demoDataSet 3) ⟨0, 0⟩).bind
      (fun r1 => (Build (demo (fun k => k == 0)) r1.self (demoDataSet 3) r1.world).map
        (fun r2 => (GetForest r1.self, r2.self.m_DataSubsetsIdx.map (fun v => v.m_Idx),
          r2.calls.map (fun c => c.view.m_Idx), GetForest r2.self))))
      = some ([1], [[0, 1, 1], [2, 2, 0], [2, 2, 0], [0, 1, 1]],
          [[0, 1, 1], [2, 2, 0]], [1, 2, 3]) :=
  ⟨⟨by decide, by decide⟩,
    second_Build_accumulates (demo (fun k => k == 0)) (demoParameters 2) (demoDataSet 3)
      (demoDataSet 3) ⟨0, 0⟩ (by decide) (by decide),
    by decide⟩

end Kaadugal
